import Mathlib

/-!
# Verification of the Circle CCTP node package (n8n-nodes-circle)

This file embeds the amount codec, address codec, attestation poller,
route/domain registry, CCTP client control flow and webhook signature
check of the repository in Lean 4, and settles the frozen claims about
them.

Modelling conventions:

* JavaScript `number` arithmetic (IEEE-754 binary64) is modelled exactly
  over `ℚ`: a double is a rational of the form `m·2^e` with `|m| < 2^53`,
  and every arithmetic step of the source that rounds (parsing a decimal
  literal, multiplying two doubles) is modelled by the round-to-nearest,
  ties-to-even function `fl` below.  `fl` uses an unbounded exponent
  (no overflow / subnormal clamping), so it agrees with IEEE binary64
  exactly on the normal, non-overflowing range `2^(-1022) ≤ |q| < 2^1024`;
  every theorem that relies on `fl` restricts its inputs to (well inside)
  that range.
* JavaScript `BigInt` division/remainder truncate toward zero; they are
  modelled by `Int.tdiv` / `Int.tmod`.
* JavaScript `Math.round` (ES `Math.round`: the closest integer, ties
  toward +∞) is modelled by `jsRound q = ⌊q + 1/2⌋`.
* Strings are modelled by Lean `String`/`List Char`; the JS string
  methods used by the source (`toLowerCase`, `toUpperCase`, `trim`,
  `padStart`, `slice`, `replace` with a plain-string pattern, regex
  tests) are modelled character-wise for the ASCII range, which covers
  every input domain the claims quantify over.
-/

namespace CircleSpec

/-! ## Exact model of IEEE-754 binary64 rounding -/

/-- Round a rational to the nearest integer, ties to even
(the rounding used at the mantissa of IEEE round-to-nearest). -/
def rne (q : ℚ) : ℤ :=
  let f := ⌊q⌋
  let r := q - f
  if r < 1/2 then f else if 1/2 < r then f + 1 else if 2 ∣ f then f else f + 1

/-- Binary exponent search: for `x` with `2^e ≤ x < 2^(e+1)` and `|e|` within
the fuel, returns `e`.  Fuel-based so that it is structurally recursive. -/
def expFind (f : ℕ) (x : ℚ) : ℤ :=
  if f = 0 then 0
  else if x < 1 then expFind (f-1) (2*x) - 1
  else if 2 ≤ x then expFind (f-1) (x/2) + 1
  else 0
termination_by f
decreasing_by all_goals omega

/-- Round a positive rational to the nearest binary64 value
(round to nearest, ties to even): scale into `[2^52, 2^53)`,
round the mantissa to an integer, scale back. -/
def flPos (x : ℚ) : ℚ :=
  (rne (x * 2^((52:ℤ) - expFind 1300 x)) : ℚ) * 2^(expFind 1300 x - 52)

/-- Round a rational to the nearest binary64 value (round to nearest,
ties to even, unbounded exponent — exact for the IEEE normal range). -/
def fl (q : ℚ) : ℚ :=
  if q = 0 then 0 else if q < 0 then -flPos (-q) else flPos q

/-- ES `Math.round`: the integer closest to `q`, ties toward `+∞`. -/
def jsRound (q : ℚ) : ℤ := ⌊q + 1/2⌋

/-! ### Correctness of the model's rounding primitives -/

theorem rne_abs_le (q : ℚ) : |(rne q : ℚ) - q| ≤ 1/2 := by
  unfold rne
  have h1 : (⌊q⌋ : ℚ) ≤ q := Int.floor_le q
  have h2 : q < ⌊q⌋ + 1 := Int.lt_floor_add_one q
  by_cases hlt : q - ⌊q⌋ < 1/2
  · simp only [hlt, if_true]
    rw [abs_le]; constructor <;> linarith
  · by_cases hgt : 1/2 < q - ⌊q⌋
    · simp only [hlt, hgt, if_false, if_true]
      push_cast
      rw [abs_le]; constructor <;> linarith
    · have heq : q - ⌊q⌋ = 1/2 := le_antisymm (not_lt.1 hgt) (not_lt.1 hlt)
      by_cases hdvd : 2 ∣ ⌊q⌋
      · simp only [hlt, hgt, hdvd, if_false, if_true]
        rw [abs_le]; constructor <;> linarith
      · simp only [hlt, hgt, hdvd, if_false, if_true]
        push_cast
        rw [abs_le]; constructor <;> linarith

theorem expFind_correct (f : ℕ) (x : ℚ)
    (hlo : (2:ℚ)^(-(f:ℤ)) ≤ x) (hhi : x < 2^(f:ℤ)) :
    (2:ℚ)^(expFind f x) ≤ x ∧ x < 2^(expFind f x + 1) := by
  induction f generalizing x with
  | zero =>
    simp only [Nat.cast_zero, neg_zero, zpow_zero] at hlo hhi
    exact absurd (lt_of_le_of_lt hlo hhi) (lt_irrefl 1)
  | succ n ih =>
    have hxpos : 0 < x := lt_of_lt_of_le (zpow_pos (by norm_num) _) hlo
    rw [expFind]
    simp only [Nat.succ_ne_zero, if_false, Nat.add_sub_cancel]
    by_cases h1 : x < 1
    · simp only [h1, if_true]
      rcases Nat.eq_zero_or_pos n with hn | hn
      · subst hn
        have hlo' : (1:ℚ)/2 ≤ x := by
          have he : (-(((0:ℕ)+1:ℕ)):ℤ) = -1 := by norm_num
          rw [he] at hlo
          simpa [zpow_neg, zpow_one] using hlo
        have h0 : expFind 0 (2*x) = 0 := by rw [expFind]; simp
        rw [h0]
        norm_num
        exact ⟨hlo', h1⟩
      · have hrec := ih (2*x) ?_ ?_
        · obtain ⟨hl, hr⟩ := hrec
          set E := expFind n (2*x) with hE
          constructor
          · have : (2:ℚ)^(E-1) * 2 = 2^E := by
              rw [← zpow_add_one₀ (by norm_num : (2:ℚ) ≠ 0)]
              norm_num
            nlinarith [hl]
          · have : (2:ℚ)^(E-1+1) * 2 = 2^(E+1) := by
              rw [← zpow_add_one₀ (by norm_num : (2:ℚ) ≠ 0)]
              ring_nf
            nlinarith [hr]
        · have : (2:ℚ)^(-(n:ℤ)) = 2^(-((n:ℤ)+1)) * 2 := by
            rw [← zpow_add_one₀ (by norm_num : (2:ℚ) ≠ 0)]
            ring_nf
          rw [this]
          push_cast at hlo
          nlinarith [hlo]
        · have h2n : (2:ℚ) ≤ 2^(n:ℤ) := by
            calc (2:ℚ) = 2^(1:ℤ) := by norm_num
            _ ≤ 2^(n:ℤ) := by
              apply zpow_le_zpow_right₀ (by norm_num)
              exact_mod_cast hn
          linarith
    · by_cases h2 : 2 ≤ x
      · simp only [h1, h2, if_true, if_false]
        rcases Nat.eq_zero_or_pos n with hn | hn
        · subst hn
          exfalso
          push_cast at hhi
          norm_num at hhi
          linarith
        · have hrec := ih (x/2) ?_ ?_
          · obtain ⟨hl, hr⟩ := hrec
            set E := expFind n (x/2) with hE
            constructor
            · have : (2:ℚ)^(E+1) = 2^E * 2 := by
                rw [← zpow_add_one₀ (by norm_num : (2:ℚ) ≠ 0)]
              rw [this]
              linarith [hl]
            · have : (2:ℚ)^(E+1+1) = 2^(E+1) * 2 := by
                rw [← zpow_add_one₀ (by norm_num : (2:ℚ) ≠ 0)]
              rw [this]
              linarith [hr]
          · have : (2:ℚ)^(-(n:ℤ)) ≤ 1 := by
              apply zpow_le_one_of_nonpos₀ (by norm_num)
              omega
            linarith
          · have : (2:ℚ)^((n:ℤ)+1) = 2^(n:ℤ) * 2 := by
              rw [← zpow_add_one₀ (by norm_num : (2:ℚ) ≠ 0)]
            push_cast at hhi
            linarith
      · simp only [h1, h2, if_false]
        push_neg at h1 h2
        constructor
        · simpa using h1
        · simpa using h2

theorem zpow_exponent_unique {x : ℚ} {e d : ℤ}
    (h1 : (2:ℚ)^e ≤ x) (h2 : x < 2^(e+1))
    (h3 : (2:ℚ)^d ≤ x) (h4 : x < 2^(d+1)) : e = d := by
  by_contra hne
  rcases lt_or_gt_of_ne hne with h | h
  · have : (2:ℚ)^(e+1) ≤ 2^d := by
      apply zpow_le_zpow_right₀ (by norm_num)
      omega
    linarith
  · have : (2:ℚ)^(d+1) ≤ 2^e := by
      apply zpow_le_zpow_right₀ (by norm_num)
      omega
    linarith

theorem expFind_eq {x : ℚ} {e : ℤ}
    (h1 : (2:ℚ)^e ≤ x) (h2 : x < 2^(e+1))
    (he1 : -1300 ≤ e) (he2 : e ≤ 1299) : expFind 1300 x = e := by
  have hlo : (2:ℚ)^(-(1300:ℕ):ℤ) ≤ x := by
    refine le_trans ?_ h1
    apply zpow_le_zpow_right₀ (by norm_num)
    push_cast; omega
  have hhi : x < (2:ℚ)^((1300:ℕ):ℤ) := by
    refine lt_of_lt_of_le h2 ?_
    apply zpow_le_zpow_right₀ (by norm_num)
    push_cast; omega
  obtain ⟨c1, c2⟩ := expFind_correct 1300 x hlo hhi
  exact zpow_exponent_unique c1 c2 h1 h2

theorem flPos_error {x : ℚ} (h1 : (2:ℚ)^(-(1299:ℤ)) ≤ x) (h2 : x ≤ 2^(1299:ℤ)) :
    |flPos x - x| ≤ x * 2^(-(53:ℤ)) := by
  have hx : 0 < x := lt_of_lt_of_le (zpow_pos (by norm_num) _) h1
  have hlo : (2:ℚ)^(-(1300:ℕ):ℤ) ≤ x := by
    refine le_trans ?_ h1
    apply zpow_le_zpow_right₀ (by norm_num)
    norm_num
  have hhi : x < (2:ℚ)^((1300:ℕ):ℤ) := by
    refine lt_of_le_of_lt h2 ?_
    apply zpow_lt_zpow_right₀ (by norm_num)
    norm_num
  obtain ⟨c1, c2⟩ := expFind_correct 1300 x hlo hhi
  unfold flPos
  set e := expFind 1300 x with he
  have hpow : ((2:ℚ)^((52:ℤ) - e)) * 2^(e - 52) = 1 := by
    rw [← zpow_add₀ (by norm_num : (2:ℚ) ≠ 0)]
    norm_num
  have hkey : (rne (x * 2^((52:ℤ) - e)) : ℚ) * 2^(e - 52) - x
      = ((rne (x * 2^((52:ℤ) - e)) : ℚ) - x * 2^((52:ℤ) - e)) * 2^(e - 52) := by
    have : x * ((2:ℚ)^((52:ℤ) - e) * 2^(e - 52)) = x := by rw [hpow]; ring
    calc (rne (x * 2^((52:ℤ) - e)) : ℚ) * 2^(e - 52) - x
        = ((rne (x * 2^((52:ℤ) - e)) : ℚ) - x * 2^((52:ℤ) - e)) * 2^(e - 52)
          + (x * ((2:ℚ)^((52:ℤ) - e) * 2^(e - 52)) - x) := by ring
      _ = _ := by rw [this]; ring
  rw [hkey, abs_mul]
  have hb := rne_abs_le (x * 2^((52:ℤ) - e))
  have hpow2 : |(2:ℚ)^(e - 52)| = 2^(e - 52) := abs_of_pos (zpow_pos (by norm_num) _)
  rw [hpow2]
  have step1 : |(rne (x * 2^((52:ℤ) - e)) : ℚ) - x * 2^((52:ℤ) - e)| * 2^(e - 52)
      ≤ (1/2) * 2^(e - 52) := by
    apply mul_le_mul_of_nonneg_right hb
    exact le_of_lt (zpow_pos (by norm_num) _)
  refine le_trans step1 ?_
  have h2e : (2:ℚ)^e ≤ x := c1
  have : (1/2 : ℚ) * 2^(e - 52) = 2^e * 2^(-(53:ℤ)) := by
    rw [show (1/2 : ℚ) = (2:ℚ)^(-(1:ℤ)) by norm_num,
      ← zpow_add₀ (by norm_num : (2:ℚ) ≠ 0),
      ← zpow_add₀ (by norm_num : (2:ℚ) ≠ 0)]
    congr 1
    ring
  rw [this]
  apply mul_le_mul_of_nonneg_right h2e
  exact le_of_lt (zpow_pos (by norm_num) _)

theorem fl_neg (q : ℚ) : fl (-q) = - fl q := by
  unfold fl
  rcases lt_trichotomy q 0 with h | h | h
  · have h1 : ¬ (-q = 0) := fun hc => absurd (neg_eq_zero.1 hc) (ne_of_lt h)
    have h2 : ¬ (-q < 0) := by linarith
    have h3 : ¬ (q = 0) := ne_of_lt h
    simp only [h1, h2, h3, h, if_false, if_true, neg_neg]
  · subst h; norm_num
  · have h1 : ¬ (-q = 0) := fun hc => absurd (neg_eq_zero.1 hc) (ne_of_gt h)
    have h2 : -q < 0 := by linarith
    have h3 : ¬ (q = 0) := ne_of_gt h
    have h4 : ¬ (q < 0) := by linarith
    simp only [h1, h2, h3, h4, if_false, if_true, neg_neg]

theorem fl_error {q : ℚ} (h1 : (2:ℚ)^(-(1299:ℤ)) ≤ |q|) (h2 : |q| ≤ 2^(1299:ℤ)) :
    |fl q - q| ≤ |q| * 2^(-(53:ℤ)) := by
  rcases lt_trichotomy q 0 with h | h | h
  · rw [abs_of_neg h] at h1 h2
    unfold fl
    simp only [ne_of_lt h, h, if_false, if_true]
    have := flPos_error h1 h2
    rw [abs_of_neg h]
    calc |-flPos (-q) - q| = |flPos (-q) - (-q)| := by rw [← abs_neg]; ring_nf
    _ ≤ (-q) * 2^(-(53:ℤ)) := this
  · subst h; simp at h1; linarith [zpow_pos (by norm_num : (0:ℚ) < 2) (-(1299:ℤ))]
  · rw [abs_of_pos h] at h1 h2
    unfold fl
    simp only [ne_of_gt h, not_lt_of_gt h, if_false]
    rw [abs_of_pos h]
    exact flPos_error h1 h2

theorem fl_eval_pos {q : ℚ} {e m : ℤ}
    (h1 : (2:ℚ)^e ≤ q) (h2 : q < 2^(e+1))
    (he1 : -1300 ≤ e) (he2 : e ≤ 1299)
    (hm : rne (q * 2^((52:ℤ) - e)) = m) : fl q = m * 2^(e - 52) := by
  have hq : 0 < q := lt_of_lt_of_le (zpow_pos (by norm_num) _) h1
  unfold fl
  simp only [ne_of_gt hq, not_lt_of_gt hq, if_false]
  unfold flPos
  rw [expFind_eq h1 h2 he1 he2, hm]

theorem rne_eq_of_lt_half {q : ℚ} {n : ℤ}
    (h1 : (n:ℚ) ≤ q) (h2 : q < n + 1/2) : rne q = n := by
  have hf : ⌊q⌋ = n := by
    rw [Int.floor_eq_iff]
    exact ⟨h1, by linarith⟩
  unfold rne
  rw [hf]
  have : q - (n:ℚ) < 1/2 := by linarith
  simp only [this, if_true]

theorem rne_eq_of_half_lt {q : ℚ} {n : ℤ}
    (h1 : (n:ℚ) - 1/2 < q) (h2 : q ≤ n) : rne q = n := by
  rcases eq_or_lt_of_le h2 with heq | hlt
  · exact rne_eq_of_lt_half (le_of_eq heq.symm) (by rw [heq]; linarith)
  · have hf : ⌊q⌋ = n - 1 := by
      rw [Int.floor_eq_iff]
      constructor
      · push_cast; linarith
      · push_cast; linarith
    unfold rne
    rw [hf]
    have hr2 : 1/2 < q - ((n - 1 : ℤ):ℚ) := by push_cast; linarith
    have hr : ¬ (q - ((n - 1 : ℤ):ℚ) < 1/2) := by linarith
    simp only [hr, hr2, if_false, if_true]
    ring

theorem jsRound_eq {q : ℚ} {n : ℤ}
    (h1 : (n:ℚ) - 1/2 ≤ q) (h2 : q < n + 1/2) : jsRound q = n := by
  unfold jsRound
  rw [Int.floor_eq_iff]
  constructor
  · linarith
  · linarith

/-! ## String helpers shared by the embedded modules

These model the JavaScript string operations the source uses
(`BigInt`/`Number` decimal `toString`, `BigInt(string)` parsing,
`padStart`, `replace(/0+$/, '')`), character-exactly on their
input domains. -/

/-- The decimal digit character for `d < 10` (`'0'` + d). -/
def decChar (d : ℕ) : Char := Char.ofNat (48 + d)

/-- Decimal string of a natural number, as produced by JS `toString`
on a whole `BigInt`/integral `number` below `1e21`. -/
def natToString (n : ℕ) : String :=
  if n = 0 then "0" else String.mk ((Nat.digits 10 n).reverse.map decChar)

/-- Decimal string of an integer (JS `BigInt.prototype.toString`). -/
def jsIntToString (z : ℤ) : String :=
  (if z < 0 then "-" else "") ++ natToString z.natAbs

/-- Value of a big-endian list of decimal digit values. -/
def charsToNat (l : List Char) : ℕ := Nat.ofDigits 10 (l.map (fun c => c.toNat - 48)).reverse

/-- JS `BigInt(string)` on a (valid) decimal string, optionally signed. -/
def jsParseBigInt (s : String) : ℤ :=
  match s.toList with
  | '-' :: rest => -(charsToNat rest : ℤ)
  | l => (charsToNat l : ℤ)

/-- List-level `padStart`: left-pad with `c` up to width `w`. -/
def padList (w : ℕ) (c : Char) (l : List Char) : List Char :=
  if w ≤ l.length then l else List.replicate (w - l.length) c ++ l

/-- JS `String.prototype.padStart(w, c)` for a single pad character. -/
def jsPadStart (w : ℕ) (c : Char) (s : String) : String :=
  String.mk (padList w c s.toList)

/-- Drop all trailing `'0'` characters of a list. -/
def stripT (l : List Char) : List Char :=
  (l.reverse.dropWhile (· = '0')).reverse

/-- JS `s.replace(/0+$/, '')`: strip all trailing zero characters. -/
def stripTrailingZeros (s : String) : String := String.mk (stripT s.toList)

/-! ## Amount codec (`toRawAmount` / `fromRawAmount`, amountUtils)

`toRawAmount(amount)` for a string amount is
`Math.round(parseFloat(amount) * Math.pow(10, 6)).toString()`.
Per the ES spec, `parseFloat` of a plain decimal literal is the exact
decimal value rounded to the nearest binary64 (`fl`), the `number`
product rounds again (`fl`), and `Math.round` is `jsRound`.
`Math.pow(10, 6) = 1000000` is exactly representable.

The input domain is plain decimal literals, modelled as a sign, an
integer part, and the list of fractional digits exactly as written. -/

structure DecAmount where
  neg : Bool
  intPart : ℕ
  frac : List (Fin 10)

/-- Value of a big-endian fractional digit list, as a natural number. -/
def digitsVal (l : List (Fin 10)) : ℕ := Nat.ofDigits 10 (l.map Fin.val).reverse

/-- Exact rational value of the decimal literal. -/
def DecAmount.value (d : DecAmount) : ℚ :=
  (if d.neg then -1 else 1) * ((d.intPart : ℚ) + (digitsVal d.frac : ℚ) / 10 ^ d.frac.length)

/-- `toRawAmount` at the integer level:
`Math.round(parseFloat(s) * 1000000)` with binary64 rounding made explicit. -/
def toRawAmountZ (d : DecAmount) : ℤ := jsRound (fl (fl d.value * 10 ^ 6))

/-- `toRawAmount(s)`: the rounded raw value rendered with `toString`
(exact decimal rendering for results below `1e21`). -/
def toRawAmount (d : DecAmount) : String := jsIntToString (toRawAmountZ d)

/-- `fromRawAmount` on an already-parsed `BigInt`.  JS `BigInt`
division/remainder truncate toward zero (`Int.tdiv`/`Int.tmod`);
the fractional part is `toString`-ed, left-padded with `'0'` to the
6 decimals and stripped of trailing zeros. -/
def fromRawAmountZ (amount : ℤ) : String :=
  let divisor : ℤ := 10 ^ 6
  let wholePart := amount.tdiv divisor
  let fractionalPart := amount.tmod divisor
  if fractionalPart = 0 then jsIntToString wholePart
  else
    let fractionalStr := jsPadStart 6 '0' (jsIntToString fractionalPart)
    jsIntToString wholePart ++ "." ++ stripTrailingZeros fractionalStr

/-- `fromRawAmount(s)` for a string raw amount: `BigInt(s)` then convert. -/
def fromRawAmount (s : String) : String := fromRawAmountZ (jsParseBigInt s)

/-- The normalization named by the claim: trailing fractional zeros
stripped, whole numbers rendered without a decimal point. -/
def normalizeDec (d : DecAmount) : String :=
  let frac' := (d.frac.reverse.dropWhile (fun k => k.val = 0)).reverse
  (if d.neg then "-" else "") ++ natToString d.intPart ++
    (if frac' = [] then "" else "." ++ String.mk (frac'.map fun k => decChar k.val))

/-- The exact scaled integer value of the amount: `value * 10^6` over ℕ
(for a nonnegative amount with at most 6 fractional digits). -/
def rawNat (d : DecAmount) : ℕ :=
  d.intPart * 10 ^ 6 + digitsVal d.frac * 10 ^ (6 - d.frac.length)

/-- Round half away from zero — the tie rule asserted by the claim. -/
def roundHalfAway (q : ℚ) : ℤ := if q < 0 then -⌊-q + 1/2⌋ else ⌊q + 1/2⌋

/-! ### Exactness of `toRawAmount` for in-range amounts with ≤ 6 decimals -/

theorem digitsVal_lt (l : List (Fin 10)) : digitsVal l < 10 ^ l.length := by
  unfold digitsVal
  have h := Nat.ofDigits_lt_base_pow_length (b := 10) (l := (l.map Fin.val).reverse)
    (by norm_num) ?_
  · simpa using h
  · intro x hx
    simp only [List.mem_reverse, List.mem_map] at hx
    obtain ⟨d, _, rfl⟩ := hx
    exact d.isLt

theorem value_eq_rawNat (d : DecAmount) (hneg : d.neg = false) (hlen : d.frac.length ≤ 6) :
    d.value = (rawNat d : ℚ) / 10 ^ 6 := by
  unfold DecAmount.value rawNat
  rw [hneg]
  have hp : (10:ℚ) ^ (6 - d.frac.length) * 10 ^ d.frac.length = 10 ^ 6 := by
    rw [← pow_add]; congr 1; omega
  have key : (digitsVal d.frac : ℚ) / 10 ^ d.frac.length
      = (digitsVal d.frac : ℚ) * 10 ^ (6 - d.frac.length) / 10 ^ 6 := by
    rw [← hp, mul_comm ((digitsVal d.frac : ℚ)) ((10:ℚ) ^ (6 - d.frac.length)),
      mul_div_mul_left _ _ (by positivity : ((10:ℚ) ^ (6 - d.frac.length)) ≠ 0)]
  push_cast
  rw [add_div, key, mul_div_assoc]
  norm_num

theorem toRawAmountZ_exact (d : DecAmount) (hneg : d.neg = false)
    (hlen : d.frac.length ≤ 6) (hN : rawNat d ≤ 2 ^ 51 - 1) :
    toRawAmountZ d = rawNat d := by
  have hv := value_eq_rawNat d hneg hlen
  obtain ⟨N, hNdef⟩ : ∃ n : ℕ, rawNat d = n := ⟨rawNat d, rfl⟩
  rw [hNdef] at hv hN ⊢
  by_cases hN0 : N = 0
  · rw [hN0] at hv
    have hv0 : d.value = 0 := by rw [hv]; norm_num
    unfold toRawAmountZ
    rw [hv0]
    have hfl0 : fl 0 = 0 := by unfold fl; simp
    rw [hfl0, zero_mul, hfl0, hN0]
    exact jsRound_eq (n := 0) (by norm_num) (by norm_num)
  · have hN1 : 1 ≤ N := Nat.one_le_iff_ne_zero.2 hN0
    have hNQ1 : (1:ℚ) ≤ (N:ℚ) := by exact_mod_cast hN1
    have hNQle : (N:ℚ) ≤ 2251799813685247 := by
      exact_mod_cast le_trans hN (by norm_num)
    have he53 : ((2:ℚ)^(-(53:ℤ))) = 1 / 9007199254740992 := by
      rw [zpow_neg]; norm_num
    have hvN : d.value * 10 ^ 6 = (N:ℚ) := by rw [hv]; field_simp
    have hvpos : 0 < d.value := by
      rw [hv]; positivity
    have hvabs : |d.value| = d.value := abs_of_pos hvpos
    have hvlo : (2:ℚ)^(-(1299:ℤ)) ≤ |d.value| := by
      rw [hvabs, hv]
      have h1 : (2:ℚ)^(-(1299:ℤ)) ≤ 1 / 10 ^ 6 := by norm_num
      refine le_trans h1 ?_
      rw [div_le_div_iff₀ (by positivity) (by positivity)]
      nlinarith [hNQ1]
    have hvhi : |d.value| ≤ (2:ℚ)^(1299:ℤ) := by
      rw [hvabs, hv]
      have h1 : (N:ℚ) / 10 ^ 6 ≤ (N:ℚ) :=
        div_le_self (by linarith) (by norm_num)
      exact le_trans h1 (le_trans hNQle (by norm_num))
    have ha := fl_error hvlo hvhi
    rw [hvabs, he53] at ha
    -- the product before its own rounding
    have hw_err : |fl d.value * 10 ^ 6 - (N:ℚ)| ≤ (N:ℚ) * (1/9007199254740992) := by
      have h1 : fl d.value * 10 ^ 6 - (N:ℚ) = (fl d.value - d.value) * 10 ^ 6 := by
        rw [← hvN]; ring
      rw [h1, abs_mul, abs_of_pos (by positivity : (0:ℚ) < 10 ^ 6)]
      calc |fl d.value - d.value| * 10 ^ 6
          ≤ (d.value * (1/9007199254740992)) * 10 ^ 6 := by
            apply mul_le_mul_of_nonneg_right ha (by positivity)
        _ = (N:ℚ) * (1/9007199254740992) := by rw [← hvN]; ring
    obtain ⟨w, hwdef⟩ : ∃ w, fl d.value * 10 ^ 6 = w := ⟨_, rfl⟩
    rw [hwdef] at hw_err
    have habs := abs_sub_abs_le_abs_sub w (N:ℚ)
    have habs2 := abs_sub_abs_le_abs_sub (N:ℚ) w
    rw [abs_sub_comm] at habs2
    have hNabs : |(N:ℚ)| = (N:ℚ) := abs_of_pos (by linarith)
    rw [hNabs] at habs habs2
    have hw_lo : (2:ℚ)^(-(1299:ℤ)) ≤ |w| := by
      have hstep : (N:ℚ) - (N:ℚ) * (1/9007199254740992) ≤ |w| := by linarith
      have h0 : (2:ℚ)^(-(1299:ℤ)) ≤ 1/2 := by norm_num
      refine le_trans h0 (le_trans ?_ hstep)
      nlinarith [hNQ1]
    have hw_hi : |w| ≤ (2:ℚ)^(1299:ℤ) := by
      have hstep : |w| ≤ (N:ℚ) + (N:ℚ) * (1/9007199254740992) := by linarith
      calc |w| ≤ (N:ℚ) + (N:ℚ) * (1/9007199254740992) := hstep
        _ ≤ 4503599627370494 := by nlinarith [hNQle]
        _ ≤ (2:ℚ)^(1299:ℤ) := by norm_num
    have hfw := fl_error hw_lo hw_hi
    rw [he53] at hfw
    have hwabs : |w| ≤ (N:ℚ) + (N:ℚ) * (1/9007199254740992) := by linarith
    -- combined error strictly below 1/2
    have htot : |fl w - (N:ℚ)| < 1/2 := by
      have h1 : |fl w - (N:ℚ)| ≤ |fl w - w| + |w - (N:ℚ)| := abs_sub_le _ _ _
      have h2 : |fl w - w|
          ≤ ((N:ℚ) + (N:ℚ) * (1/9007199254740992)) * (1/9007199254740992) := by
        refine le_trans hfw ?_
        apply mul_le_mul_of_nonneg_right hwabs (by norm_num)
      have h3 : ((N:ℚ) + (N:ℚ) * (1/9007199254740992)) * (1/9007199254740992)
            + (N:ℚ) * (1/9007199254740992) < 1/2 := by
        nlinarith [hNQle, hNQ1]
      linarith
    rw [abs_sub_lt_iff] at htot
    unfold toRawAmountZ
    rw [hwdef]
    exact jsRound_eq (n := (N:ℤ))
      (by push_cast; linarith [htot.2]) (by push_cast; linarith [htot.1])

/-- Whenever the exact scaled value `amount * 10^6` is farther from the
integer `n` than the two accumulated binary64 relative rounding errors
(`2^-52 + 2^-106` of the scaled value), `toRawAmount` produces exactly `n`.
The range hypotheses keep the value well inside the binary64 normal range,
where `fl` is the exact IEEE rounding. -/
theorem toRawAmountZ_near (d : DecAmount) (n : ℤ)
    (hlo : (2:ℚ)^(-(900:ℤ)) ≤ |d.value|) (hhi : |d.value| ≤ (2:ℚ)^(900:ℤ))
    (hmargin : |d.value * 10 ^ 6 - (n:ℚ)|
        + |d.value * 10 ^ 6| * (1/4503599627370496 + 1/81129638414606681695789005144064)
        < 1/2) :
    toRawAmountZ d = n := by
  have he53 : ((2:ℚ)^(-(53:ℤ))) = 1 / 9007199254740992 := by
    rw [zpow_neg]; norm_num
  have hvlo : (2:ℚ)^(-(1299:ℤ)) ≤ |d.value| := le_trans (by norm_num) hlo
  have hvhi : |d.value| ≤ (2:ℚ)^(1299:ℤ) := le_trans hhi (by norm_num)
  have ha := fl_error hvlo hvhi
  rw [he53] at ha
  obtain ⟨r, hrdef⟩ : ∃ r, d.value * 10 ^ 6 = r := ⟨_, rfl⟩
  rw [hrdef] at hmargin
  have hr_abs : |r| = |d.value| * 10 ^ 6 := by
    rw [← hrdef, abs_mul]
    norm_num
  have hw_err : |fl d.value * 10 ^ 6 - r| ≤ |r| * (1/9007199254740992) := by
    have h1 : fl d.value * 10 ^ 6 - r = (fl d.value - d.value) * 10 ^ 6 := by
      rw [← hrdef]; ring
    rw [h1, abs_mul, abs_of_pos (by positivity : (0:ℚ) < 10 ^ 6), hr_abs]
    calc |fl d.value - d.value| * 10 ^ 6
        ≤ (|d.value| * (1/9007199254740992)) * 10 ^ 6 := by
          apply mul_le_mul_of_nonneg_right ha (by positivity)
      _ = |d.value| * 10 ^ 6 * (1/9007199254740992) := by ring
  obtain ⟨w, hwdef⟩ : ∃ w, fl d.value * 10 ^ 6 = w := ⟨_, rfl⟩
  rw [hwdef] at hw_err
  have hrlo : (2:ℚ)^(-(900:ℤ)) ≤ |r| := by
    rw [hr_abs]
    nlinarith [hlo, zpow_pos (by norm_num : (0:ℚ) < 2) (-(900:ℤ))]
  have hrhi : |r| ≤ (2:ℚ)^(900:ℤ) * 10 ^ 6 := by
    rw [hr_abs]
    nlinarith [hhi, zpow_pos (by norm_num : (0:ℚ) < 2) (900:ℤ)]
  have habs := abs_sub_abs_le_abs_sub w r
  have habs2 := abs_sub_abs_le_abs_sub r w
  rw [abs_sub_comm] at habs2
  have hw_lo : (2:ℚ)^(-(1299:ℤ)) ≤ |w| := by
    have hstep : |r| - |r| * (1/9007199254740992) ≤ |w| := by linarith
    have h1 : (2:ℚ)^(-(900:ℤ)) * (1 - 1/9007199254740992) ≤ |r| * (1 - 1/9007199254740992) := by
      apply mul_le_mul_of_nonneg_right hrlo (by norm_num)
    have h2 : (2:ℚ)^(-(1299:ℤ)) ≤ (2:ℚ)^(-(900:ℤ)) * (1 - 1/9007199254740992) := by
      norm_num
    nlinarith [hstep, h1, h2]
  have hw_hi : |w| ≤ (2:ℚ)^(1299:ℤ) := by
    have hstep : |w| ≤ |r| + |r| * (1/9007199254740992) := by linarith
    have h1 : |r| + |r| * (1/9007199254740992)
        ≤ ((2:ℚ)^(900:ℤ) * 10 ^ 6) * (1 + 1/9007199254740992) := by
      nlinarith [hrhi, abs_nonneg r]
    have h2 : ((2:ℚ)^(900:ℤ) * 10 ^ 6) * (1 + 1/9007199254740992) ≤ (2:ℚ)^(1299:ℤ) := by
      norm_num
    linarith
  have hfw := fl_error hw_lo hw_hi
  rw [he53] at hfw
  have hwabs : |w| ≤ |r| + |r| * (1/9007199254740992) := by linarith
  have htot : |fl w - (n:ℚ)| < 1/2 := by
    have h1 : |fl w - (n:ℚ)| ≤ |fl w - w| + |w - r| + |r - (n:ℚ)| := by
      calc |fl w - (n:ℚ)| ≤ |fl w - w| + |w - (n:ℚ)| := abs_sub_le _ _ _
        _ ≤ |fl w - w| + (|w - r| + |r - (n:ℚ)|) := by
            linarith [abs_sub_le w r ((n:ℚ))]
        _ = |fl w - w| + |w - r| + |r - (n:ℚ)| := by ring
    have h2 : |fl w - w| ≤ (|r| + |r| * (1/9007199254740992)) * (1/9007199254740992) := by
      refine le_trans hfw ?_
      apply mul_le_mul_of_nonneg_right hwabs (by norm_num)
    have h4 : (|r| + |r| * (1/9007199254740992)) * (1/9007199254740992)
        + |r| * (1/9007199254740992)
        = |r| * (1/4503599627370496 + 1/81129638414606681695789005144064) := by
      ring
    nlinarith [h1, h2, hmargin, hw_err, h4, abs_sub_comm w r]
  rw [abs_sub_lt_iff] at htot
  unfold toRawAmountZ
  rw [hwdef]
  exact jsRound_eq (by linarith [htot.2]) (by linarith [htot.1])

/-! ### `fromRawAmount` agrees with claim-side normalization on exact raw values -/

theorem ofDigits_ten_zero {L : List ℕ} (h : Nat.ofDigits 10 L = 0) : ∀ x ∈ L, x = 0 := by
  induction L with
  | nil => simp
  | cons d t ih =>
    rw [Nat.ofDigits_cons] at h
    have hd : d = 0 := by omega
    have ht : Nat.ofDigits 10 t = 0 := by omega
    intro x hx
    rcases List.mem_cons.1 hx with rfl | hx
    · exact hd
    · exact ih ht x hx

theorem digitsVal_cons (a : Fin 10) (t : List (Fin 10)) :
    digitsVal (a :: t) = digitsVal t + 10 ^ t.length * a.val := by
  unfold digitsVal
  simp only [List.map_cons, List.reverse_cons]
  rw [Nat.ofDigits_append]
  simp [Nat.ofDigits_singleton]

theorem digitsLenLe (l : List (Fin 10)) :
    (Nat.digits 10 (digitsVal l)).length ≤ l.length := by
  by_cases h : digitsVal l = 0
  · simp [h]
  · rw [Nat.digits_len 10 _ (by norm_num) h]
    have hlt := digitsVal_lt l
    have hlog := Nat.log_lt_of_lt_pow h hlt
    omega

theorem frac_split (l : List (Fin 10)) :
    l.map Fin.val
      = List.replicate (l.length - (Nat.digits 10 (digitsVal l)).length) 0
        ++ (Nat.digits 10 (digitsVal l)).reverse := by
  induction l with
  | nil => simp [digitsVal]
  | cons a t ih =>
    by_cases ha : a.val = 0
    · have hv : digitsVal (a :: t) = digitsVal t := by
        rw [digitsVal_cons, ha]; simp
      have hlen := digitsLenLe t
      rw [List.map_cons, ha, hv, ih, List.length_cons]
      rw [show t.length + 1 - (Nat.digits 10 (digitsVal t)).length
          = (t.length - (Nat.digits 10 (digitsVal t)).length) + 1 by omega]
      rw [List.replicate_succ]
      simp
    · have hlt : ∀ x ∈ ((a :: t).map Fin.val).reverse, x < 10 := by
        intro x hx
        simp only [List.mem_reverse, List.mem_map] at hx
        obtain ⟨k, _, rfl⟩ := hx
        exact k.isLt
      have hL : ((a :: t).map Fin.val).reverse = (t.map Fin.val).reverse ++ [a.val] := by
        simp
      have hgl : ∀ h : ((a :: t).map Fin.val).reverse ≠ [],
          (((a :: t).map Fin.val).reverse).getLast h ≠ 0 := by
        intro hne
        simp only [hL]
        rw [List.getLast_concat]
        exact ha
      have hdig : Nat.digits 10 (digitsVal (a :: t)) = ((a :: t).map Fin.val).reverse := by
        have hv : digitsVal (a :: t) = Nat.ofDigits 10 (((a :: t).map Fin.val).reverse) := rfl
        rw [hv]
        exact Nat.digits_ofDigits 10 (by norm_num) _ hlt hgl
      rw [hdig]
      simp

theorem dropWhile_replicate_append (p : Char → Bool) (c : Char) (hp : p c = true)
    (k : ℕ) (l : List Char) :
    List.dropWhile p (List.replicate k c ++ l) = List.dropWhile p l := by
  induction k with
  | zero => simp
  | succ n ih => simp [List.replicate_succ, List.dropWhile_cons, hp, ih]

theorem stripT_append_replicate (l : List Char) (k : ℕ) :
    stripT (l ++ List.replicate k '0') = stripT l := by
  unfold stripT
  rw [List.reverse_append, List.reverse_replicate,
    dropWhile_replicate_append _ _ (by decide)]

theorem stripT_replicate_append (k : ℕ) (l : List Char) (h : stripT l ≠ []) :
    stripT (List.replicate k '0' ++ l) = List.replicate k '0' ++ stripT l := by
  unfold stripT at *
  rw [List.reverse_append, List.reverse_replicate, List.dropWhile_append]
  have hne : (List.dropWhile (· = '0') l.reverse).isEmpty = false := by
    rcases hdw : List.dropWhile (· = '0') l.reverse with _ | ⟨x, xs⟩
    · exact absurd (by rw [hdw]; rfl) h
    · rfl
  rw [hne]
  simp

theorem stripT_eq_nil_iff (l : List Char) : stripT l = [] ↔ ∀ c ∈ l, c = '0' := by
  unfold stripT
  rw [List.reverse_eq_nil_iff, List.dropWhile_eq_nil_iff]
  constructor
  · intro h c hc
    simpa using h c (List.mem_reverse.2 hc)
  · intro h c hc
    simpa using h c (List.mem_reverse.1 hc)

theorem padList_eq (l : List Char) (h : l.length ≤ 6) :
    padList 6 '0' l = List.replicate (6 - l.length) '0' ++ l := by
  unfold padList
  by_cases h6 : 6 ≤ l.length
  · have h66 : l.length = 6 := le_antisymm h h6
    rw [if_pos h6, h66]
    simp
  · rw [if_neg h6]

theorem decChar_eq_zero_iff {x : ℕ} (hx : x < 10) : decChar x = '0' ↔ x = 0 := by
  interval_cases x <;> simp [decChar]

theorem decChar_zero : decChar 0 = '0' := by decide

theorem natToString_toList {n : ℕ} (hn : n ≠ 0) :
    (natToString n).toList = (Nat.digits 10 n).reverse.map decChar := by
  unfold natToString
  rw [if_neg hn]
  rfl

theorem jsIntToString_natCast (n : ℕ) : jsIntToString (n : ℤ) = natToString n := by
  unfold jsIntToString
  rw [if_neg (by simp), Int.natAbs_ofNat]
  apply String.ext
  simp [String.data_append]

theorem tdiv_natCast (m k : ℕ) : (m:ℤ).tdiv (k:ℤ) = ((m / k : ℕ) : ℤ) := rfl

theorem tmod_natCast (m k : ℕ) : (m:ℤ).tmod (k:ℤ) = ((m % k : ℕ) : ℤ) := rfl

theorem digitsVal_eq_zero_of_forall {l : List (Fin 10)} (h : ∀ k ∈ l, k.val = 0) :
    digitsVal l = 0 := by
  induction l with
  | nil => rfl
  | cons a t ih =>
    rw [digitsVal_cons, h a (List.mem_cons_self a t),
      ih (fun k hk => h k (List.mem_cons_of_mem a hk))]
    simp

/-- Stripping trailing zero digits commutes with rendering digits as chars. -/
theorem finStrip_map (l : List (Fin 10)) :
    ((l.reverse.dropWhile (fun k => k.val = 0)).reverse).map (fun k => decChar k.val)
      = stripT (l.map fun k => decChar k.val) := by
  unfold stripT
  rw [← List.map_reverse, List.dropWhile_map]
  have hpred : ((fun c => decide (c = '0')) ∘ fun k : Fin 10 => decChar k.val)
      = fun k : Fin 10 => decide (k.val = 0) := by
    funext k
    simp only [Function.comp]
    exact decide_eq_decide.2 (decChar_eq_zero_iff k.isLt)
  rw [hpred, ← List.map_reverse]

theorem fromRawAmountZ_rawNat (d : DecAmount) (hneg : d.neg = false)
    (hlen : d.frac.length ≤ 6) :
    fromRawAmountZ ((rawNat d : ℕ) : ℤ) = normalizeDec d := by
  have hF := digitsVal_lt d.frac
  have hP : digitsVal d.frac * 10 ^ (6 - d.frac.length) < 10 ^ 6 := by
    calc digitsVal d.frac * 10 ^ (6 - d.frac.length)
        < 10 ^ d.frac.length * 10 ^ (6 - d.frac.length) :=
          (Nat.mul_lt_mul_right (by positivity)).2 hF
      _ = 10 ^ 6 := by rw [← pow_add]; congr 1; omega
  have hcast : ((10:ℤ)^6) = ((10^6 : ℕ) : ℤ) := by norm_num
  have hdiv : ((rawNat d : ℕ) : ℤ).tdiv ((10:ℤ) ^ 6) = (d.intPart : ℤ) := by
    rw [hcast, tdiv_natCast]
    congr 1
    unfold rawNat
    rw [add_comm, mul_comm d.intPart]
    rw [Nat.add_mul_div_left _ _ (by positivity)]
    rw [Nat.div_eq_of_lt hP]
    omega
  have hmod : ((rawNat d : ℕ) : ℤ).tmod ((10:ℤ) ^ 6)
      = ((digitsVal d.frac * 10 ^ (6 - d.frac.length) : ℕ) : ℤ) := by
    rw [hcast, tmod_natCast]
    congr 1
    unfold rawNat
    rw [add_comm, mul_comm d.intPart, Nat.add_mul_mod_self_left, Nat.mod_eq_of_lt hP]
  clear hcast
  simp only [fromRawAmountZ]
  rw [hdiv, hmod]
  by_cases hF0 : digitsVal d.frac = 0
  · have hP0 : digitsVal d.frac * 10 ^ (6 - d.frac.length) = 0 := by rw [hF0]; ring
    rw [hP0]
    rw [if_pos (by norm_num)]
    have hall : ∀ k ∈ d.frac, k.val = 0 := by
      intro k hk
      have hz := ofDigits_ten_zero (L := (d.frac.map Fin.val).reverse) hF0
      exact hz k.val (List.mem_reverse.2 (List.mem_map_of_mem Fin.val hk))
    simp only [normalizeDec]
    have hnil : (d.frac.reverse.dropWhile (fun k => k.val = 0)).reverse = [] := by
      rw [List.reverse_eq_nil_iff, List.dropWhile_eq_nil_iff]
      intro x hx
      simp [hall x (List.mem_reverse.1 hx)]
    rw [hneg, hnil, jsIntToString_natCast]
    simp only [if_pos rfl]
    apply String.ext
    simp [String.data_append]
  · have hPne : digitsVal d.frac * 10 ^ (6 - d.frac.length) ≠ 0 :=
      Nat.mul_ne_zero hF0 (by positivity)
    rw [if_neg (by exact_mod_cast hPne)]
    have hdc := digitsLenLe d.frac
    have hPdig : Nat.digits 10 (digitsVal d.frac * 10 ^ (6 - d.frac.length))
        = List.replicate (6 - d.frac.length) 0 ++ Nat.digits 10 (digitsVal d.frac) := by
      rw [mul_comm]
      exact Nat.digits_base_pow_mul (by norm_num) (Nat.pos_of_ne_zero hF0)
    have hPlist : (natToString (digitsVal d.frac * 10 ^ (6 - d.frac.length))).toList
        = (Nat.digits 10 (digitsVal d.frac)).reverse.map decChar
          ++ List.replicate (6 - d.frac.length) '0' := by
      rw [natToString_toList hPne, hPdig, List.reverse_append, List.reverse_replicate,
        List.map_append, List.map_replicate, decChar_zero]
    have hlength : ((Nat.digits 10 (digitsVal d.frac)).reverse.map decChar
          ++ List.replicate (6 - d.frac.length) '0').length
        = (Nat.digits 10 (digitsVal d.frac)).length + (6 - d.frac.length) := by
      simp
    -- the stripped fractional chars, with `M` the digit chars of the value
    have hMne : stripT ((Nat.digits 10 (digitsVal d.frac)).reverse.map decChar) ≠ [] := by
      intro hnil
      rw [stripT_eq_nil_iff] at hnil
      have hglne := Nat.getLast_digit_ne_zero 10 hF0
      have hglmem : (Nat.digits 10 (digitsVal d.frac)).getLast
          (Nat.digits_ne_nil_iff_ne_zero.mpr hF0) ∈ Nat.digits 10 (digitsVal d.frac) :=
        List.getLast_mem _
      have hc : decChar ((Nat.digits 10 (digitsVal d.frac)).getLast
            (Nat.digits_ne_nil_iff_ne_zero.mpr hF0))
          ∈ (Nat.digits 10 (digitsVal d.frac)).reverse.map decChar := by
        exact List.mem_map_of_mem decChar (List.mem_reverse.2 hglmem)
      have := hnil _ hc
      rw [decChar_eq_zero_iff (Nat.digits_lt_base (by norm_num) hglmem)] at this
      exact hglne this
    have hstrip :
        stripT (padList 6 '0' ((Nat.digits 10 (digitsVal d.frac)).reverse.map decChar
            ++ List.replicate (6 - d.frac.length) '0'))
        = List.replicate (d.frac.length - (Nat.digits 10 (digitsVal d.frac)).length) '0'
          ++ stripT ((Nat.digits 10 (digitsVal d.frac)).reverse.map decChar) := by
      rw [padList_eq _ (by rw [hlength]; omega), hlength]
      rw [show 6 - ((Nat.digits 10 (digitsVal d.frac)).length + (6 - d.frac.length))
          = d.frac.length - (Nat.digits 10 (digitsVal d.frac)).length by omega]
      rw [← List.append_assoc, stripT_append_replicate,
        stripT_replicate_append _ _ hMne]
    -- the normalized fractional digit chars are the same list
    have hfrac' : ((d.frac.reverse.dropWhile (fun k => k.val = 0)).reverse).map
          (fun k => decChar k.val)
        = List.replicate (d.frac.length - (Nat.digits 10 (digitsVal d.frac)).length) '0'
          ++ stripT ((Nat.digits 10 (digitsVal d.frac)).reverse.map decChar) := by
      rw [finStrip_map]
      have hm : d.frac.map (fun k => decChar k.val)
          = List.replicate (d.frac.length - (Nat.digits 10 (digitsVal d.frac)).length) '0'
            ++ (Nat.digits 10 (digitsVal d.frac)).reverse.map decChar := by
        have h1 : d.frac.map (fun k => decChar k.val)
            = (d.frac.map Fin.val).map decChar := by
          rw [List.map_map]; rfl
        rw [h1, frac_split, List.map_append, List.map_replicate, decChar_zero]
      rw [hm, stripT_replicate_append _ _ hMne]
    have hfrne : (d.frac.reverse.dropWhile (fun k => k.val = 0)).reverse ≠ [] := by
      intro hnil
      apply hF0
      apply digitsVal_eq_zero_of_forall
      intro k hk
      rw [List.reverse_eq_nil_iff, List.dropWhile_eq_nil_iff] at hnil
      simpa using hnil k (List.mem_reverse.2 hk)
    simp only [normalizeDec]
    rw [hneg, if_neg hfrne, jsIntToString_natCast, jsIntToString_natCast]
    apply String.ext
    simp only [String.data_append]
    have hchars : (stripTrailingZeros (jsPadStart 6 '0'
          (natToString (digitsVal d.frac * 10 ^ (6 - d.frac.length))))).data
        = ((d.frac.reverse.dropWhile (fun k => k.val = 0)).reverse).map
            (fun k => decChar k.val) := by
      unfold stripTrailingZeros jsPadStart
      rw [hfrac']
      show stripT (padList 6 '0'
          ((natToString (digitsVal d.frac * 10 ^ (6 - d.frac.length))).toList))
        = List.replicate (d.frac.length - (Nat.digits 10 (digitsVal d.frac)).length) '0'
          ++ stripT ((Nat.digits 10 (digitsVal d.frac)).reverse.map decChar)
      rw [hPlist]
      exact hstrip
    rw [hchars]
    simp [String.data_append]

theorem decChar_toNat {d : ℕ} (hd : d < 10) : (decChar d).toNat - 48 = d := by
  interval_cases d <;> decide

theorem decChar_ne_dash {d : ℕ} (hd : d < 10) : decChar d ≠ '-' := by
  interval_cases d <;> decide

theorem charsToNat_digits (n : ℕ) :
    charsToNat ((Nat.digits 10 n).reverse.map decChar) = n := by
  unfold charsToNat
  rw [List.map_map]
  have hmap : (Nat.digits 10 n).reverse.map ((fun c => c.toNat - 48) ∘ decChar)
      = (Nat.digits 10 n).reverse.map id := by
    apply List.map_congr_left
    intro d hd
    have hd10 : d < 10 := Nat.digits_lt_base (by norm_num) (List.mem_reverse.1 hd)
    rw [Function.comp_apply, decChar_toNat hd10]
    rfl
  rw [hmap, List.map_id, List.reverse_reverse, Nat.ofDigits_digits]

theorem charsToNat_natToString (n : ℕ) :
    charsToNat ((natToString n).toList) = n := by
  by_cases hn : n = 0
  · subst hn; decide
  · rw [natToString_toList hn, charsToNat_digits]

theorem natToString_chars_ne_dash (n : ℕ) : ∀ c ∈ (natToString n).toList, c ≠ '-' := by
  intro c hc
  by_cases hn : n = 0
  · subst hn
    have h0 : (natToString 0).toList = ['0'] := by decide
    rw [h0] at hc
    simp only [List.mem_singleton] at hc
    subst hc
    decide
  · rw [natToString_toList hn] at hc
    simp only [List.mem_map, List.mem_reverse] at hc
    obtain ⟨d, hd, rfl⟩ := hc
    exact decChar_ne_dash (Nat.digits_lt_base (by norm_num) hd)

theorem jsParseBigInt_jsIntToString (z : ℤ) : jsParseBigInt (jsIntToString z) = z := by
  by_cases hz : z < 0
  · have hlist : (jsIntToString z).toList = '-' :: (natToString z.natAbs).toList := by
      unfold jsIntToString
      rw [if_pos hz]
      rfl
    unfold jsParseBigInt
    rw [hlist]
    show -(charsToNat ((natToString z.natAbs).toList) : ℤ) = z
    rw [charsToNat_natToString]
    omega
  · have hlist : (jsIntToString z).toList = (natToString z.natAbs).toList := by
      unfold jsIntToString
      rw [if_neg hz]
      rfl
    unfold jsParseBigInt
    rw [hlist]
    split
    · rename_i rest heq
      exfalso
      exact natToString_chars_ne_dash z.natAbs '-'
        (by rw [heq]; exact List.mem_cons_self _ _) rfl
    · rw [charsToNat_natToString]
      omega

/-- `fromRawAmount(toRawAmount(s))` recovers the normalized amount for
every nonnegative decimal amount with at most 6 fractional digits whose
scaled value stays below `2^51`. -/
theorem amount_roundtrip (d : DecAmount) (hneg : d.neg = false)
    (hlen : d.frac.length ≤ 6) (hN : rawNat d ≤ 2 ^ 51 - 1) :
    fromRawAmount (toRawAmount d) = normalizeDec d := by
  unfold fromRawAmount toRawAmount
  rw [jsParseBigInt_jsIntToString, toRawAmountZ_exact d hneg hlen hN]
  exact fromRawAmountZ_rawNat d hneg hlen

/-! ### Concrete evaluations of the amount codec -/

/-- `fl` is the identity on values whose scaled mantissa is an integer
(exactly representable binary64 values). -/
theorem fl_exact_of_int_mantissa {q : ℚ} {e m : ℤ}
    (h1 : (2:ℚ)^e ≤ q) (h2 : q < 2^(e+1))
    (he1 : -1300 ≤ e) (he2 : e ≤ 1299)
    (hq : q * 2^((52:ℤ)-e) = (m:ℚ)) : fl q = q := by
  have hr : rne (q * 2^((52:ℤ)-e)) = m := by
    rw [hq]
    exact rne_eq_of_lt_half (le_refl _) (by norm_num)
  have hfl := fl_eval_pos h1 h2 he1 he2 hr
  rw [hfl, ← hq, mul_assoc, ← zpow_add₀ (by norm_num : (2:ℚ) ≠ 0),
    show (52:ℤ) - e + (e - 52) = 0 by ring, zpow_zero, mul_one]

theorem natToString_one : natToString 1 = "1" := by
  unfold natToString
  rw [if_neg (by norm_num), show Nat.digits 10 1 = [1] from by norm_num]
  decide

theorem natToString_500000 : natToString 500000 = "500000" := by
  unfold natToString
  rw [if_neg (by norm_num),
    show Nat.digits 10 500000 = [0,0,0,0,0,5] from by norm_num]
  decide

theorem negOnePointFive_value : (⟨true, 1, [5]⟩ : DecAmount).value = -(3/2) := by
  have h5 : digitsVal [(5 : Fin 10)] = 5 := by decide
  simp only [DecAmount.value, h5]
  norm_num

theorem toRawAmountZ_negOnePointFive :
    toRawAmountZ ⟨true, 1, [5]⟩ = -1500000 := by
  have h32 : fl ((3:ℚ)/2) = 3/2 :=
    fl_exact_of_int_mantissa (e := 0) (m := 6755399441055744)
      (by norm_num) (by norm_num) (by norm_num) (by norm_num) (by norm_num)
  have h15 : fl ((1500000:ℚ)) = 1500000 :=
    fl_exact_of_int_mantissa (e := 20) (m := 6442450944000000)
      (by norm_num) (by norm_num) (by norm_num) (by norm_num) (by norm_num)
  unfold toRawAmountZ
  rw [negOnePointFive_value, fl_neg, h32,
    show (-((3:ℚ)/2) * 10^6) = -((1500000:ℚ)) by norm_num, fl_neg, h15]
  exact jsRound_eq (n := -1500000) (by norm_num) (by norm_num)

theorem fromRawAmountZ_negOnePointFive :
    fromRawAmountZ (-1500000) = "-1.-5" := by
  have ht1 : ((-1500000 : ℤ)).tdiv (10 ^ 6) = -1 := by decide
  have ht2 : ((-1500000 : ℤ)).tmod (10 ^ 6) = -500000 := by decide
  simp only [fromRawAmountZ]
  rw [ht1, ht2, if_neg (by decide)]
  have hj5 : jsIntToString (-500000) = "-500000" := by
    unfold jsIntToString
    rw [if_pos (by decide), show ((-500000:ℤ).natAbs) = 500000 from by decide,
      natToString_500000]
    decide
  have hj1 : jsIntToString (-1) = "-1" := by
    unfold jsIntToString
    rw [if_pos (by decide), show ((-1:ℤ).natAbs) = 1 from by decide, natToString_one]
    decide
  rw [hj5, hj1]
  decide

theorem normalizeDec_negOnePointFive :
    normalizeDec ⟨true, 1, [5]⟩ = "-1.5" := by
  simp only [normalizeDec, natToString_one]
  decide

theorem tieAmount_value :
    (⟨true, 0, [0,0,7,8,1,2,5]⟩ : DecAmount).value = -(1/128) := by
  have h5 : digitsVal [(0 : Fin 10), 0, 7, 8, 1, 2, 5] = 78125 := by decide
  simp only [DecAmount.value, h5]
  norm_num

theorem toRawAmountZ_tieAmount :
    toRawAmountZ ⟨true, 0, [0,0,7,8,1,2,5]⟩ = -7812 := by
  have h1 : fl ((1:ℚ)/128) = 1/128 :=
    fl_exact_of_int_mantissa (e := -7) (m := 4503599627370496)
      (by norm_num) (by norm_num) (by norm_num) (by norm_num) (by norm_num)
  have h2 : fl ((15625:ℚ)/2) = 15625/2 :=
    fl_exact_of_int_mantissa (e := 12) (m := 8589934592000000)
      (by norm_num) (by norm_num) (by norm_num) (by norm_num) (by norm_num)
  unfold toRawAmountZ
  rw [tieAmount_value, fl_neg, h1,
    show (-((1:ℚ)/128) * 10^6) = -((15625:ℚ)/2) by norm_num, fl_neg, h2]
  exact jsRound_eq (n := -7812) (by norm_num) (by norm_num)

theorem roundHalfAway_tieAmount :
    roundHalfAway ((⟨true, 0, [0,0,7,8,1,2,5]⟩ : DecAmount).value * 10 ^ 6) = -7813 := by
  rw [tieAmount_value, show (-((1:ℚ)/128) * 10^6) = -((15625:ℚ)/2) by norm_num]
  unfold roundHalfAway
  rw [if_pos (by norm_num)]
  have hf : ⌊-(-((15625:ℚ)/2)) + 1/2⌋ = 7813 := by
    rw [Int.floor_eq_iff]
    constructor <;> norm_num
  rw [hf]

theorem sevenDigit_value :
    (⟨false, 0, [1,2,3,4,5,6,7]⟩ : DecAmount).value = 1234567/10^7 := by
  have h : digitsVal [(1 : Fin 10), 2, 3, 4, 5, 6, 7] = 1234567 := by decide
  simp only [DecAmount.value, h]
  norm_num

/-! ## Claim C1 -/

/-- C1 (amended): for every nonnegative decimal amount string with at
most 6 decimal places whose scaled value `amount·10^6` is below `2^51`,
`fromRawAmount (toRawAmount amount)` equals the amount after string
normalization (trailing fractional zeros stripped, whole numbers without
a decimal point).  The nonnegativity and magnitude restrictions are
forced by the counterexamples: negative amounts produce corrupt output
(`fromRawAmount` renders a negative fractional remainder with an
embedded minus sign), and amounts at `2^53`-scale lose precision in
`parseFloat`. -/
theorem C1_roundtrip_normalized (d : DecAmount) (hneg : d.neg = false)
    (hlen : d.frac.length ≤ 6) (hN : rawNat d ≤ 2 ^ 51 - 1) :
    fromRawAmount (toRawAmount d) = normalizeDec d :=
  amount_roundtrip d hneg hlen hN

/-- Witness for C1 at the amount "100.5". -/
theorem C1_roundtrip_normalized_witness :
    (⟨false, 100, [5]⟩ : DecAmount).neg = false ∧
    (⟨false, 100, [5]⟩ : DecAmount).frac.length ≤ 6 ∧
    rawNat ⟨false, 100, [5]⟩ ≤ 2 ^ 51 - 1 ∧
    fromRawAmount (toRawAmount ⟨false, 100, [5]⟩) = normalizeDec ⟨false, 100, [5]⟩ :=
  ⟨rfl, by decide, by decide, C1_roundtrip_normalized _ rfl (by decide) (by decide)⟩

/-- C1 counterexample: the amount "-1.5" has one decimal place, but the
round trip yields "-1.-5" (the code `padStart`s and strips the
`toString` of the negative remainder `-500000`), not "-1.5". -/
theorem C1_counterexample :
    (⟨true, 1, [5]⟩ : DecAmount).frac.length ≤ 6 ∧
    fromRawAmount (toRawAmount ⟨true, 1, [5]⟩) ≠ normalizeDec ⟨true, 1, [5]⟩ := by
  refine ⟨by decide, ?_⟩
  unfold fromRawAmount toRawAmount
  rw [toRawAmountZ_negOnePointFive, jsParseBigInt_jsIntToString,
    fromRawAmountZ_negOnePointFive, normalizeDec_negOnePointFive]
  decide

/-! ## Claim C7 -/

/-- C7 (amended): for an amount with more than 6 decimal places,
`toRawAmount` rounds (does not truncate) at the `10^-6` place: whenever
the exact value `amount·10^6` is farther from the integer `n` than the
accumulated floating-point error bound `|amount·10^6|·(2^-52 + 2^-106)`
(and the amount is within the binary64 normal range), the raw result is
exactly `n`, the nearest integer.  At midpoints the tie is resolved by
JS `Math.round` on the binary64 product — half toward `+∞`, not half
away from zero (see the counterexample). -/
theorem C7_rounding_margin (d : DecAmount) (n : ℤ) (_h7 : 6 < d.frac.length)
    (hlo : (2:ℚ)^(-(900:ℤ)) ≤ |d.value|) (hhi : |d.value| ≤ (2:ℚ)^(900:ℤ))
    (hmargin : |d.value * 10 ^ 6 - (n:ℚ)|
        + |d.value * 10 ^ 6| * (1/4503599627370496 + 1/81129638414606681695789005144064)
        < 1/2) :
    toRawAmountZ d = n :=
  toRawAmountZ_near d n hlo hhi hmargin

/-- Witness for C7 at the amount "0.1234567" (7 decimal places), which
rounds up to 123457 raw units. -/
theorem C7_rounding_margin_witness :
    6 < (⟨false, 0, [1,2,3,4,5,6,7]⟩ : DecAmount).frac.length ∧
    (2:ℚ)^(-(900:ℤ)) ≤ |(⟨false, 0, [1,2,3,4,5,6,7]⟩ : DecAmount).value| ∧
    |(⟨false, 0, [1,2,3,4,5,6,7]⟩ : DecAmount).value| ≤ (2:ℚ)^(900:ℤ) ∧
    (|(⟨false, 0, [1,2,3,4,5,6,7]⟩ : DecAmount).value * 10 ^ 6 - ((123457:ℤ):ℚ)|
      + |(⟨false, 0, [1,2,3,4,5,6,7]⟩ : DecAmount).value * 10 ^ 6|
        * (1/4503599627370496 + 1/81129638414606681695789005144064) < 1/2) ∧
    toRawAmountZ ⟨false, 0, [1,2,3,4,5,6,7]⟩ = 123457 := by
  have habs : |(⟨false, 0, [1,2,3,4,5,6,7]⟩ : DecAmount).value| = 1234567/10^7 := by
    rw [sevenDigit_value]
    exact abs_of_pos (by norm_num)
  have hlo : (2:ℚ)^(-(900:ℤ)) ≤ |(⟨false, 0, [1,2,3,4,5,6,7]⟩ : DecAmount).value| := by
    rw [habs]; norm_num
  have hhi : |(⟨false, 0, [1,2,3,4,5,6,7]⟩ : DecAmount).value| ≤ (2:ℚ)^(900:ℤ) := by
    rw [habs]; norm_num
  have hmargin : |(⟨false, 0, [1,2,3,4,5,6,7]⟩ : DecAmount).value * 10 ^ 6 - ((123457:ℤ):ℚ)|
      + |(⟨false, 0, [1,2,3,4,5,6,7]⟩ : DecAmount).value * 10 ^ 6|
        * (1/4503599627370496 + 1/81129638414606681695789005144064) < 1/2 := by
    rw [sevenDigit_value]
    have h1 : (1234567:ℚ)/10^7 * 10^6 - ((123457:ℤ):ℚ) = -(3/10) := by
      push_cast; norm_num
    have h2 : |(1234567:ℚ)/10^7 * 10^6| = 1234567/10 := by
      rw [abs_of_pos (by norm_num)]; norm_num
    rw [h1, abs_neg, abs_of_pos (by norm_num), h2]
    norm_num
  exact ⟨by decide, hlo, hhi, hmargin,
    C7_rounding_margin _ 123457 (by decide) hlo hhi hmargin⟩

/-- C7 counterexample: "-0.0078125" (7 decimal places, exactly
representable so no floating-point error at all): the exact scaled value
is `-7812.5`; rounding half away from zero gives `-7813`, but the code
(JS `Math.round`, ties toward `+∞`) produces `-7812`. -/
theorem C7_counterexample :
    6 < (⟨true, 0, [0,0,7,8,1,2,5]⟩ : DecAmount).frac.length ∧
    toRawAmountZ ⟨true, 0, [0,0,7,8,1,2,5]⟩ = -7812 ∧
    roundHalfAway ((⟨true, 0, [0,0,7,8,1,2,5]⟩ : DecAmount).value * 10 ^ 6) = -7813 ∧
    (-7812 : ℤ) ≠ -7813 :=
  ⟨by decide, toRawAmountZ_tieAmount, roundHalfAway_tieAmount, by decide⟩

/-! ## Attestation poller (attestationUtils: `fetchAttestation`, `waitForAttestation`) -/

inductive AttestationStatus
  | pending
  | complete
deriving DecidableEq

structure AttestationResponse where
  status : AttestationStatus
  attestation : Option String
  message : Option String
deriving DecidableEq

/-- Outcome of one axios GET against the attestation endpoint. -/
inductive FetchOutcome
  /-- 2xx response, with the parsed JSON body's fields. -/
  | success (status : AttestationStatus) (attestation : Option String)
  /-- axios error; `httpStatus` is `error.response?.status`
  (`none` when no response was received). -/
  | axiosError (httpStatus : Option ℕ) (message : String)
  /-- a non-axios exception, rethrown unchanged. -/
  | otherError (message : String)
deriving DecidableEq

/-- `fetchAttestation`: a success response passes `status` and
`attestation` through; a 404 axios error becomes a normal pending
result; any other axios error is rethrown as
`"Attestation fetch failed: " + error.message`; non-axios errors are
rethrown as-is. -/
def fetchAttestation : FetchOutcome → Except String AttestationResponse
  | .success st att => .ok ⟨st, att, none⟩
  | .axiosError st msg =>
    if st = some 404 then .ok ⟨.pending, none, some "Attestation not yet available"⟩
    else .error ("Attestation fetch failed: " ++ msg)
  | .otherError msg => .error msg

/-- Truthiness of `response.attestation` (JS: the empty string is falsy). -/
def hasAttestation (r : AttestationResponse) : Bool :=
  match r.attestation with
  | some s => s ≠ ""
  | none => false

/-- `response.status === 'complete' && response.attestation`. -/
def isDone (r : AttestationResponse) : Bool :=
  decide (r.status = AttestationStatus.complete) && hasAttestation r

/-- The polling loop of `waitForAttestation`: `attempt` is the index of
the next fetch and the fuel is `maxAttempts - attempt`.  Returns the
result paired with the number of fetch calls performed.  The fixed
`sleep(intervalMs)` between attempts does not influence the result and
is not modelled. -/
def waitLoop (endpointAt : ℕ → FetchOutcome) (maxAttempts : ℕ) :
    ℕ → ℕ → Except String String × ℕ
  | 0, _ =>
    (.error ("Attestation not available after " ++ natToString maxAttempts
      ++ " attempts"), 0)
  | fuel+1, attempt =>
    match fetchAttestation (endpointAt attempt) with
    | .error e => (.error e, 1)
    | .ok r =>
      if isDone r then (.ok (r.attestation.getD ""), 1)
      else
        let rec' := waitLoop endpointAt maxAttempts fuel (attempt+1)
        (rec'.1, rec'.2 + 1)

/-- `waitForAttestation(messageHash, isTestnet, maxAttempts)`, modelled
over the stream of fetch outcomes, returning the result and the exact
number of fetch calls performed. -/
def waitForAttestation (endpointAt : ℕ → FetchOutcome) (maxAttempts : ℕ) :
    Except String String × ℕ :=
  waitLoop endpointAt maxAttempts maxAttempts 0

/-- Attempts 1-2 (indices 0-1) return HTTP 404; from attempt 3 the
attestation is complete. -/
def mockPendingTwiceEndpoint : ℕ → FetchOutcome := fun i =>
  if i < 2 then .axiosError (some 404) "Request failed with status code 404"
  else .success .complete (some "0xdeadbeef")

/-- An endpoint that always returns HTTP 404. -/
def mockAlwaysMissingEndpoint : ℕ → FetchOutcome := fun _ =>
  .axiosError (some 404) "Request failed with status code 404"

theorem waitLoop_finds (endpointAt : ℕ → FetchOutcome) (M : ℕ) :
    ∀ (k fuel attempt : ℕ) (r : AttestationResponse), k < fuel →
    (∀ i, i < k → ∃ ri, fetchAttestation (endpointAt (attempt+i)) = .ok ri
        ∧ isDone ri = false) →
    fetchAttestation (endpointAt (attempt+k)) = .ok r →
    isDone r = true →
    waitLoop endpointAt M fuel attempt = (.ok (r.attestation.getD ""), k+1) := by
  intro k
  induction k with
  | zero =>
    intro fuel attempt r hk hbefore hok hdone
    match fuel, hk with
    | fuel+1, _ =>
      rw [waitLoop]
      rw [show attempt + 0 = attempt from rfl] at hok
      rw [hok]
      simp [hdone]
  | succ k ih =>
    intro fuel attempt r hk hbefore hok hdone
    match fuel, hk with
    | fuel+1, hk =>
      rw [waitLoop]
      obtain ⟨r0, hr0, hr0f⟩ := hbefore 0 (Nat.succ_pos k)
      rw [show attempt + 0 = attempt from rfl] at hr0
      rw [hr0]
      have hrec := ih fuel (attempt+1) r (by omega)
        (fun i hi => by
          obtain ⟨ri, h1, h2⟩ := hbefore (i+1) (by omega)
          exact ⟨ri, by rw [show attempt + 1 + i = attempt + (i+1) by omega]; exact h1, h2⟩)
        (by rw [show attempt + 1 + k = attempt + (k+1) by omega]; exact hok)
        hdone
      simp [hr0f, hrec]

theorem waitLoop_timeout (endpointAt : ℕ → FetchOutcome) (M : ℕ) :
    ∀ (fuel attempt : ℕ),
    (∀ i, i < fuel → ∃ ri, fetchAttestation (endpointAt (attempt+i)) = .ok ri
        ∧ isDone ri = false) →
    waitLoop endpointAt M fuel attempt
      = (.error ("Attestation not available after " ++ natToString M
          ++ " attempts"), fuel) := by
  intro fuel
  induction fuel with
  | zero =>
    intro attempt _
    rw [waitLoop]
  | succ fuel ih =>
    intro attempt hall
    rw [waitLoop]
    obtain ⟨r0, hr0, hr0f⟩ := hall 0 (Nat.succ_pos fuel)
    rw [show attempt + 0 = attempt from rfl] at hr0
    rw [hr0]
    have hrec := ih (attempt+1) (fun i hi => by
      obtain ⟨ri, h1, h2⟩ := hall (i+1) (by omega)
      exact ⟨ri, by rw [show attempt + 1 + i = attempt + (i+1) by omega]; exact h1, h2⟩)
    simp [hr0f, hrec]

/-! ## Claim C2 -/

/-- C2: `waitForAttestation` performs exactly one fetch per attempt and
stops at the first attempt whose response is complete with a (truthy)
attestation, returning it; if no such response occurs within
`maxAttempts` attempts it raises the timeout error after exactly
`maxAttempts` fetches.  In particular, with 404s on attempts 1-2 and a
complete attestation from attempt 3 and `maxAttempts = 5` it resolves
after exactly 3 fetches, and with an always-404 endpoint and
`maxAttempts = 2` it raises after exactly 2 fetches. -/
theorem C2_waitForAttestation_contract :
    (∀ (endpointAt : ℕ → FetchOutcome) (M k : ℕ) (r : AttestationResponse),
      k < M →
      (∀ i, i < k → ∃ ri, fetchAttestation (endpointAt i) = .ok ri ∧ isDone ri = false) →
      fetchAttestation (endpointAt k) = .ok r →
      isDone r = true →
      waitForAttestation endpointAt M = (.ok (r.attestation.getD ""), k+1)) ∧
    (∀ (endpointAt : ℕ → FetchOutcome) (M : ℕ),
      (∀ i, i < M → ∃ ri, fetchAttestation (endpointAt i) = .ok ri ∧ isDone ri = false) →
      waitForAttestation endpointAt M
        = (.error ("Attestation not available after " ++ natToString M
            ++ " attempts"), M)) ∧
    waitForAttestation mockPendingTwiceEndpoint 5 = (.ok "0xdeadbeef", 3) ∧
    waitForAttestation mockAlwaysMissingEndpoint 2
      = (.error ("Attestation not available after " ++ natToString 2
          ++ " attempts"), 2) := by
  have hfind : ∀ (endpointAt : ℕ → FetchOutcome) (M k : ℕ) (r : AttestationResponse),
      k < M →
      (∀ i, i < k → ∃ ri, fetchAttestation (endpointAt i) = .ok ri ∧ isDone ri = false) →
      fetchAttestation (endpointAt k) = .ok r →
      isDone r = true →
      waitForAttestation endpointAt M = (.ok (r.attestation.getD ""), k+1) := by
    intro e M k r hk hb hok hdone
    unfold waitForAttestation
    exact waitLoop_finds e M k M 0 r hk
      (fun i hi => by simpa using hb i hi) (by simpa using hok) hdone
  have htime : ∀ (endpointAt : ℕ → FetchOutcome) (M : ℕ),
      (∀ i, i < M → ∃ ri, fetchAttestation (endpointAt i) = .ok ri ∧ isDone ri = false) →
      waitForAttestation endpointAt M
        = (.error ("Attestation not available after " ++ natToString M
            ++ " attempts"), M) := by
    intro e M hall
    unfold waitForAttestation
    exact waitLoop_timeout e M M 0 (fun i hi => by simpa using hall i hi)
  refine ⟨hfind, htime, ?_, ?_⟩
  · have := hfind mockPendingTwiceEndpoint 5 2 ⟨.complete, some "0xdeadbeef", none⟩
      (by norm_num)
      (fun i hi => ⟨⟨.pending, none, some "Attestation not yet available"⟩,
        by interval_cases i <;> exact ⟨rfl, rfl⟩⟩)
      rfl rfl
    simpa using this
  · exact htime mockAlwaysMissingEndpoint 2
      (fun i hi => ⟨⟨.pending, none, some "Attestation not yet available"⟩,
        by interval_cases i <;> exact ⟨rfl, rfl⟩⟩)

/-- Witness for C2: the first general conjunct applied to the concrete
mocked endpoint that 404s twice and then completes, with
`maxAttempts = 5`. -/
theorem C2_waitForAttestation_contract_witness :
    waitForAttestation mockPendingTwiceEndpoint 5 = (.ok "0xdeadbeef", 3) := by
  have := C2_waitForAttestation_contract.1 mockPendingTwiceEndpoint 5 2
    ⟨.complete, some "0xdeadbeef", none⟩
    (by norm_num)
    (fun i hi => ⟨⟨.pending, none, some "Attestation not yet available"⟩,
      by interval_cases i <;> exact ⟨rfl, rfl⟩⟩)
    rfl rfl
  simpa using this

/-! ## Claim C4 -/

/-- C4: `fetchAttestation` maps HTTP 404 to a normal pending result,
any other axios failure to a raised error carrying the underlying
message, and passes success responses through as status plus optional
attestation. -/
theorem C4_fetchAttestation_mapping :
    (∀ st att, fetchAttestation (.success st att) = .ok ⟨st, att, none⟩) ∧
    (∀ msg, fetchAttestation (.axiosError (some 404) msg)
        = .ok ⟨.pending, none, some "Attestation not yet available"⟩) ∧
    (∀ st msg, st ≠ some 404 →
      fetchAttestation (.axiosError st msg)
        = .error ("Attestation fetch failed: " ++ msg)) :=
  ⟨fun _ _ => rfl,
   fun msg => by simp [fetchAttestation],
   fun st msg h => by simp [fetchAttestation, h]⟩

/-- Witness for C4 at a 500 response. -/
theorem C4_fetchAttestation_mapping_witness :
    (some 500 ≠ some 404) ∧
    fetchAttestation (.axiosError (some 500) "Internal Server Error")
      = .error ("Attestation fetch failed: " ++ "Internal Server Error") :=
  ⟨by decide,
   C4_fetchAttestation_mapping.2.2 (some 500) "Internal Server Error" (by decide)⟩

/-! ## Network registry (constants/networks.ts) -/

structure NetworkConfig where
  name : String
  /-- `chainId: number | string`. -/
  chainId : ℕ ⊕ String
  nativeCurrency : String
  explorerUrl : String
  rpcUrl : String
  isTestnet : Bool
  cctpDomainId : Option ℕ
deriving DecidableEq

/-- The `NETWORKS` record, as an association list in source order. -/
def NETWORKS : List (String × NetworkConfig) := [
  ("ethereum", ⟨"Ethereum Mainnet", .inl 1, "ETH", "https://etherscan.io",
    "https://eth.llamarpc.com", false, some 0⟩),
  ("polygon", ⟨"Polygon", .inl 137, "MATIC", "https://polygonscan.com",
    "https://polygon.llamarpc.com", false, some 7⟩),
  ("arbitrum", ⟨"Arbitrum One", .inl 42161, "ETH", "https://arbiscan.io",
    "https://arb1.arbitrum.io/rpc", false, some 3⟩),
  ("optimism", ⟨"Optimism", .inl 10, "ETH", "https://optimistic.etherscan.io",
    "https://mainnet.optimism.io", false, some 2⟩),
  ("base", ⟨"Base", .inl 8453, "ETH", "https://basescan.org",
    "https://mainnet.base.org", false, some 6⟩),
  ("avalanche", ⟨"Avalanche C-Chain", .inl 43114, "AVAX", "https://snowtrace.io",
    "https://api.avax.network/ext/bc/C/rpc", false, some 1⟩),
  ("solana", ⟨"Solana", .inr "solana-mainnet", "SOL", "https://explorer.solana.com",
    "https://api.mainnet-beta.solana.com", false, some 5⟩),
  ("stellar", ⟨"Stellar", .inr "stellar-mainnet", "XLM",
    "https://stellar.expert/explorer/public", "https://horizon.stellar.org", false, none⟩),
  ("near", ⟨"NEAR Protocol", .inr "near-mainnet", "NEAR", "https://explorer.near.org",
    "https://rpc.mainnet.near.org", false, none⟩),
  ("noble", ⟨"Noble (Cosmos)", .inr "noble-1", "USDC", "https://www.mintscan.io/noble",
    "https://noble-rpc.polkachu.com", false, some 4⟩),
  ("hedera", ⟨"Hedera", .inl 295, "HBAR", "https://hashscan.io/mainnet",
    "https://mainnet.hashio.io/api", false, none⟩),
  ("sepolia", ⟨"Ethereum Sepolia", .inl 11155111, "ETH", "https://sepolia.etherscan.io",
    "https://rpc.sepolia.org", true, some 0⟩),
  ("mumbai", ⟨"Polygon Mumbai", .inl 80001, "MATIC", "https://mumbai.polygonscan.com",
    "https://rpc-mumbai.maticvigil.com", true, some 7⟩),
  ("arbitrum-sepolia", ⟨"Arbitrum Sepolia", .inl 421614, "ETH",
    "https://sepolia.arbiscan.io", "https://sepolia-rollup.arbitrum.io/rpc", true, some 3⟩),
  ("optimism-sepolia", ⟨"Optimism Sepolia", .inl 11155420, "ETH",
    "https://sepolia-optimism.etherscan.io", "https://sepolia.optimism.io", true, some 2⟩),
  ("base-sepolia", ⟨"Base Sepolia", .inl 84532, "ETH", "https://sepolia.basescan.org",
    "https://sepolia.base.org", true, some 6⟩),
  ("fuji", ⟨"Avalanche Fuji", .inl 43113, "AVAX", "https://testnet.snowtrace.io",
    "https://api.avax-test.network/ext/bc/C/rpc", true, some 1⟩),
  ("solana-devnet", ⟨"Solana Devnet", .inr "solana-devnet", "SOL",
    "https://explorer.solana.com?cluster=devnet", "https://api.devnet.solana.com",
    true, some 5⟩)]

/-! ## CCTP domain registry (constants/domains.ts) -/

/-- `CCTP_DOMAIN_IDS`, in source order. -/
def CCTP_DOMAIN_IDS : List (String × ℕ) := [
  ("ethereum", 0), ("avalanche", 1), ("optimism", 2), ("arbitrum", 3),
  ("noble", 4), ("solana", 5), ("base", 6), ("polygon", 7),
  ("sepolia", 0), ("fuji", 1), ("optimism-sepolia", 2), ("arbitrum-sepolia", 3),
  ("base-sepolia", 6), ("mumbai", 7), ("solana-devnet", 5)]

/-- `getDomainId(network)`: record lookup (`undefined` as `none`). -/
def getDomainId (network : String) : Option ℕ := CCTP_DOMAIN_IDS.lookup network

/-- `CCTP_ROUTES`: supported destinations per source, in source order. -/
def CCTP_ROUTES : List (String × List String) := [
  ("ethereum", ["avalanche", "optimism", "arbitrum", "noble", "solana", "base", "polygon"]),
  ("avalanche", ["ethereum", "optimism", "arbitrum", "noble", "solana", "base", "polygon"]),
  ("optimism", ["ethereum", "avalanche", "arbitrum", "noble", "solana", "base", "polygon"]),
  ("arbitrum", ["ethereum", "avalanche", "optimism", "noble", "solana", "base", "polygon"]),
  ("noble", ["ethereum", "avalanche", "optimism", "arbitrum", "solana", "base", "polygon"]),
  ("solana", ["ethereum", "avalanche", "optimism", "arbitrum", "noble", "base", "polygon"]),
  ("base", ["ethereum", "avalanche", "optimism", "arbitrum", "noble", "solana", "polygon"]),
  ("polygon", ["ethereum", "avalanche", "optimism", "arbitrum", "noble", "solana", "base"]),
  ("sepolia", ["fuji", "optimism-sepolia", "arbitrum-sepolia", "base-sepolia", "mumbai",
    "solana-devnet"]),
  ("fuji", ["sepolia", "optimism-sepolia", "arbitrum-sepolia", "base-sepolia", "mumbai",
    "solana-devnet"]),
  ("optimism-sepolia", ["sepolia", "fuji", "arbitrum-sepolia", "base-sepolia", "mumbai",
    "solana-devnet"]),
  ("arbitrum-sepolia", ["sepolia", "fuji", "optimism-sepolia", "base-sepolia", "mumbai",
    "solana-devnet"]),
  ("base-sepolia", ["sepolia", "fuji", "optimism-sepolia", "arbitrum-sepolia", "mumbai",
    "solana-devnet"]),
  ("mumbai", ["sepolia", "fuji", "optimism-sepolia", "arbitrum-sepolia", "base-sepolia",
    "solana-devnet"]),
  ("solana-devnet", ["sepolia", "fuji", "optimism-sepolia", "arbitrum-sepolia",
    "base-sepolia", "mumbai"])]

/-- `isRouteSupported(source, destination)`:
`routes ? routes.includes(destination) : false`. -/
def isRouteSupported (source destination : String) : Bool :=
  match CCTP_ROUTES.lookup source with
  | some routes => routes.contains destination
  | none => false

/-- `CCTP_TRANSFER_TIMES` (minutes): each network maps to `{default: n}`. -/
def CCTP_TRANSFER_TIMES : List (String × List (String × ℕ)) := [
  ("ethereum", [("default", 15)]), ("avalanche", [("default", 3)]),
  ("optimism", [("default", 3)]), ("arbitrum", [("default", 3)]),
  ("noble", [("default", 5)]), ("solana", [("default", 1)]),
  ("base", [("default", 3)]), ("polygon", [("default", 5)])]

/-- JS `x || d` on an optionally-present number (`0` and `undefined` are falsy). -/
def jsOrNum (o : Option ℕ) (dflt : ℕ) : ℕ :=
  match o with
  | some n => if n = 0 then dflt else n
  | none => dflt

/-- `estimateTransferTime(source, destination)`:
`sourceTimes[destination] || sourceTimes.default || 20`, with a default
of 20 minutes for unknown sources. -/
def estimateTransferTime (source destination : String) : ℕ :=
  match CCTP_TRANSFER_TIMES.lookup source with
  | none => 20
  | some sourceTimes =>
    jsOrNum (sourceTimes.lookup destination) (jsOrNum (sourceTimes.lookup "default") 20)

theorem mem_of_lookup_eq_some {α β : Type} [BEq α] [LawfulBEq α]
    {l : List (α × β)} {a : α} {b : β} (h : l.lookup a = some b) : (a, b) ∈ l := by
  induction l with
  | nil => simp [List.lookup] at h
  | cons p t ih =>
    rcases p with ⟨k, v⟩
    rw [List.lookup] at h
    by_cases hk : a == k
    · rw [hk] at h
      simp only [Option.some_inj] at h
      subst h
      have hak : a = k := eq_of_beq hk
      subst hak
      exact List.mem_cons_self _ _
    · rw [Bool.not_eq_true] at hk
      rw [hk] at h
      exact List.mem_cons_of_mem _ (ih h)

/-! ## Claim C6 -/

/-- Every route in the table joins two distinct networks of the same
environment (both mainnet or both testnet), checked over the whole
static table. -/
theorem routeTable_invariant : ∀ p ∈ CCTP_ROUTES, ∀ dst ∈ p.2,
    p.1 ≠ dst
    ∧ (NETWORKS.lookup p.1).map NetworkConfig.isTestnet
        = (NETWORKS.lookup dst).map NetworkConfig.isTestnet
    ∧ (NETWORKS.lookup p.1).isSome
    ∧ (NETWORKS.lookup dst).isSome := by decide

/-- C6: the route-support relation admits no self-route and never
crosses environments: `isRouteSupported s d` implies `s ≠ d` and that
`NETWORKS[s].isTestnet = NETWORKS[d].isTestnet`; moreover
`isRouteSupported "ethereum" "ethereum" = false` and
`isRouteSupported "ethereum" "avalanche" = true`. -/
theorem C6_route_no_self_no_cross :
    (∀ s d : String, isRouteSupported s d = true →
      s ≠ d ∧ ∃ cs cd, NETWORKS.lookup s = some cs ∧ NETWORKS.lookup d = some cd ∧
        cs.isTestnet = cd.isTestnet) ∧
    isRouteSupported "ethereum" "ethereum" = false ∧
    isRouteSupported "ethereum" "avalanche" = true := by
  refine ⟨?_, by decide, by decide⟩
  intro s d h
  unfold isRouteSupported at h
  rcases hl : CCTP_ROUTES.lookup s with _ | routes
  · rw [hl] at h
    simp at h
  · rw [hl] at h
    have hcont : routes.contains d = true := h
    have hd : d ∈ routes := List.mem_of_elem_eq_true hcont
    have hmem := mem_of_lookup_eq_some hl
    obtain ⟨hne, hmap, hs1, hs2⟩ := routeTable_invariant (s, routes) hmem d hd
    obtain ⟨cs, hcs⟩ := Option.isSome_iff_exists.1 hs1
    obtain ⟨cd, hcd⟩ := Option.isSome_iff_exists.1 hs2
    refine ⟨hne, cs, cd, hcs, hcd, ?_⟩
    rw [hcs, hcd] at hmap
    simpa using hmap

/-- Witness for C6 on the supported route ethereum → avalanche. -/
theorem C6_route_no_self_no_cross_witness :
    "ethereum" ≠ "avalanche" ∧
    ∃ cs cd, NETWORKS.lookup "ethereum" = some cs ∧
      NETWORKS.lookup "avalanche" = some cd ∧ cs.isTestnet = cd.isTestnet :=
  C6_route_no_self_no_cross.1 "ethereum" "avalanche" (by decide)

/-! ## Claim C9 -/

structure TransferStatus where
  attestationStatus : AttestationStatus
  attestation : Option String
  estimatedTime : ℕ
deriving DecidableEq

/-- `CctpClient.getTransferStatus` after a successful `getAttestation`:
status and attestation pass through and
`estimatedTime = result.status === 'pending' ? 15 : 0`.  The client's
configured source network is in scope (`this.config`) but is not
consulted. -/
def getTransferStatus (_sourceNetwork : String) (result : AttestationResponse) :
    TransferStatus :=
  ⟨result.status, result.attestation, if result.status = .pending then 15 else 0⟩

/-- C9 counterexample: with the source network configured to avalanche
and a pending attestation, the code reports an estimate of 15 minutes,
while the static per-network median for avalanche is 3 minutes
(`CCTP_TRANSFER_TIMES.avalanche.default`, `estimateTransferTime`). -/
theorem C9_counterexample :
    (getTransferStatus "avalanche" ⟨.pending, none, none⟩).estimatedTime = 15 ∧
    estimateTransferTime "avalanche" "ethereum" = 3 ∧
    CCTP_TRANSFER_TIMES.lookup "avalanche" = some [("default", 3)] ∧
    (15 : ℕ) ≠ 3 := by
  refine ⟨rfl, by decide, by decide, by decide⟩

/-- C9 (amended): `getTransferStatus` returns the attestation status and
attestation unchanged; the estimated wait is the constant 15 when the
status is pending and 0 otherwise — the same for every configured
source network (the static per-network table is not consulted). -/
theorem C9_estimate_constant :
    ∀ (net net' : String) (r : AttestationResponse),
    (getTransferStatus net r).attestationStatus = r.status ∧
    (getTransferStatus net r).attestation = r.attestation ∧
    (getTransferStatus net r).estimatedTime
      = (if r.status = AttestationStatus.pending then 15 else 0) ∧
    getTransferStatus net r = getTransferStatus net' r :=
  fun _ _ _ => ⟨rfl, rfl, rfl, rfl⟩

/-! ## Character-level models of the JS string methods

JS `toLowerCase`/`toUpperCase` are modelled on the ASCII letters, which
covers hex strings, addresses and every input domain the claims
quantify over. -/

def jsToLowerChar (c : Char) : Char :=
  if 'A' ≤ c ∧ c ≤ 'Z' then Char.ofNat (c.toNat + 32) else c

def jsToLower (s : String) : String := String.mk (s.toList.map jsToLowerChar)

def jsToUpperChar (c : Char) : Char :=
  if 'a' ≤ c ∧ c ≤ 'z' then Char.ofNat (c.toNat - 32) else c

def jsToUpper (s : String) : String := String.mk (s.toList.map jsToUpperChar)

/-- ASCII whitespace (the JS `trim` set restricted to ASCII). -/
def isJsSpace (c : Char) : Bool := c = ' ' ∨ c = '\t' ∨ c = '\n' ∨ c = '\r'

def jsTrim (s : String) : String :=
  String.mk (((s.toList.dropWhile isJsSpace).reverse.dropWhile isJsSpace).reverse)

theorem char_toNat_ofNat {n : ℕ} (h : n.isValidChar) : (Char.ofNat n).toNat = n := by
  unfold Char.ofNat
  rw [dif_pos h]
  rfl

theorem jsToLowerChar_idem (c : Char) : jsToLowerChar (jsToLowerChar c) = jsToLowerChar c := by
  unfold jsToLowerChar
  by_cases h : 'A' ≤ c ∧ c ≤ 'Z'
  · rw [if_pos h]
    have h90 : c.toNat ≤ 90 := h.2
    have hval : (c.toNat + 32).isValidChar := Or.inl (by omega)
    have htn := char_toNat_ofNat hval
    have hnot : ¬('A' ≤ Char.ofNat (c.toNat + 32) ∧ Char.ofNat (c.toNat + 32) ≤ 'Z') := by
      intro hc
      have : (Char.ofNat (c.toNat + 32)).toNat ≤ 90 := hc.2
      rw [htn] at this
      have : 65 ≤ c.toNat := h.1
      omega
    rw [if_neg hnot]
  · rw [if_neg h, if_neg h]

/-! ## Webhook signature check (signatureUtils.ts: `verifyWebhookSignature`) -/

/-- `verifyWebhookSignature(payload, signature, secret)`, parametrized by
the HMAC-SHA256 hex-digest function (node `crypto`, an external
collaborator; `hmacSha256Hex secret payload` is
`createHmac('sha256', secret).update(payload).digest('hex')`).

The source guards falsy (empty) inputs, lowercases both the received
signature and the freshly computed digest, and compares them with
`crypto.timingSafeEqual`; that throws when the byte lengths differ, and
the `catch` turns it into `false`.  Byte-wise equality of equal-length
UTF-8 encodings is exactly string equality, so the whole body is the
lowercased string comparison — total, never throwing. -/
def verifyWebhookSignature (hmacSha256Hex : String → String → String)
    (payload signature secret : String) : Bool :=
  if payload = "" ∨ signature = "" ∨ secret = "" then false
  else jsToLower signature == jsToLower (hmacSha256Hex secret payload)

/-! ## Claim C10 -/

/-- C10: `verifyWebhookSignature` is total and fail-closed: it returns
`false` whenever any input is empty, and returns `true` exactly when all
three inputs are nonempty and the signature equals the hex HMAC-SHA256
digest case-insensitively (in particular, signatures of the wrong
length — which make `timingSafeEqual` throw in the source — yield
`false` through the same comparison). -/
theorem C10_verifyWebhookSignature_contract :
    ∀ (hmacSha256Hex : String → String → String) (payload signature secret : String),
    (verifyWebhookSignature hmacSha256Hex payload signature secret = true
      ↔ payload ≠ "" ∧ signature ≠ "" ∧ secret ≠ "" ∧
        jsToLower signature = jsToLower (hmacSha256Hex secret payload)) ∧
    (payload = "" ∨ signature = "" ∨ secret = "" →
      verifyWebhookSignature hmacSha256Hex payload signature secret = false) := by
  intro h p s k
  constructor
  · unfold verifyWebhookSignature
    by_cases he : p = "" ∨ s = "" ∨ k = ""
    · rw [if_pos he]
      constructor
      · intro hc
        exact absurd hc (by simp)
      · rintro ⟨h1, h2, h3, _⟩
        rcases he with he | he | he
        · exact absurd he h1
        · exact absurd he h2
        · exact absurd he h3
    · rw [if_neg he]
      push_neg at he
      obtain ⟨h1, h2, h3⟩ := he
      simp [beq_iff_eq, h1, h2, h3]
  · intro he
    unfold verifyWebhookSignature
    rw [if_pos he]

/-- Witness for C10: empty payload yields `false`. -/
theorem C10_verifyWebhookSignature_contract_witness :
    (("" : String) = "" ∨ ("a1b2" : String) = "" ∨ ("whsec" : String) = "") ∧
    verifyWebhookSignature (fun _ _ => "A1B2") "" "a1b2" "whsec" = false :=
  ⟨Or.inl rfl,
   (C10_verifyWebhookSignature_contract (fun _ _ => "A1B2") "" "a1b2" "whsec").2
     (Or.inl rfl)⟩

/-! ## Address codec (addressUtils.ts) -/

/-- The character class of `/^0x[a-fA-F0-9]{40}$/`'s body. -/
def isHexDigit (c : Char) : Bool :=
  ('0' ≤ c ∧ c ≤ '9') ∨ ('a' ≤ c ∧ c ≤ 'f') ∨ ('A' ≤ c ∧ c ≤ 'F')

/-- `EVM_ADDRESS_REGEX.test`: `0x` followed by exactly 40 hex chars. -/
def isEvmShape (s : String) : Bool :=
  match s.toList with
  | '0' :: 'x' :: rest => rest.length = 40 && rest.all isHexDigit
  | _ => false

/-- The class of `/^[1-9A-HJ-NP-Za-km-z]/` (base58). -/
def solanaRegexChar (c : Char) : Bool :=
  ('1' ≤ c ∧ c ≤ '9') ∨ ('A' ≤ c ∧ c ≤ 'H') ∨ ('J' ≤ c ∧ c ≤ 'N')
    ∨ ('P' ≤ c ∧ c ≤ 'Z') ∨ ('a' ≤ c ∧ c ≤ 'k') ∨ ('m' ≤ c ∧ c ≤ 'z')

def base58Chars : String :=
  "123456789ABCDEFGHJKLMNPQRSTUVWXYZabcdefghijkmnopqrstuvwxyz"

/-- `validateSolanaAddress`: length-bounded base58 regex, then the
redundant explicit base58 alphabet check. -/
def validateSolanaAddress (s : String) : Bool :=
  if ¬(32 ≤ s.length ∧ s.length ≤ 44 ∧ s.toList.all solanaRegexChar) then false
  else s.toList.all (fun c => base58Chars.toList.contains c)

def stellarBodyChar (c : Char) : Bool :=
  ('A' ≤ c ∧ c ≤ 'Z') ∨ ('2' ≤ c ∧ c ≤ '7')

/-- `validateStellarAddress`: `/^G[A-Z2-7]{55}$/`. -/
def validateStellarAddress (s : String) : Bool :=
  match s.toList with
  | 'G' :: rest => rest.length = 55 && rest.all stellarBodyChar
  | _ => false

def nearSegChar (c : Char) : Bool :=
  ('a' ≤ c ∧ c ≤ 'z') ∨ ('0' ≤ c ∧ c ≤ '9') ∨ c = '_' ∨ c = '-'

/-- `validateNearAddress`:
`/^([a-z0-9_-]+\.)*[a-z0-9_-]+\.(near|testnet)$|^[a-f0-9]{64}$/i` —
dot-separated nonempty segments ending in `.near`/`.testnet`, or a
64-char hex string; case-insensitive. -/
def validateNearAddress (s : String) : Bool :=
  let t := jsToLower s
  let segs := t.splitOn "."
  (2 ≤ segs.length
      && segs.all (fun seg => seg ≠ "" && seg.toList.all nearSegChar)
      && (segs.getLast? = some "near" ∨ segs.getLast? = some "testnet"))
    || (t.length = 64
      && t.toList.all (fun c => ('a' ≤ c ∧ c ≤ 'f') ∨ ('0' ≤ c ∧ c ≤ '9')))

/-- `validateNobleAddress`: `/^noble[a-z0-9]{39}$/`. -/
def validateNobleAddress (s : String) : Bool :=
  match s.toList with
  | 'n' :: 'o' :: 'b' :: 'l' :: 'e' :: rest =>
    rest.length = 39 && rest.all (fun c => ('a' ≤ c ∧ c ≤ 'z') ∨ ('0' ≤ c ∧ c ≤ '9'))
  | _ => false

def isDigitChar (c : Char) : Bool := '0' ≤ c ∧ c ≤ '9'

/-- `validateHederaAddress`: `/^0\.0\.\d+$/`. -/
def validateHederaAddress (s : String) : Bool :=
  match s.toList with
  | '0' :: '.' :: '0' :: '.' :: rest => !rest.isEmpty && rest.all isDigitChar
  | _ => false

/-- `validateEvmChecksum`: despite the name, the source only lowercases
into an unused local and re-runs the shape regex (the `try` body cannot
throw). -/
def validateEvmChecksum (address : String) : Bool := isEvmShape address

/-- `validateEvmAddress`: shape test, then the (vacuous) checksum branch
for mixed-case addresses. -/
def validateEvmAddress (address : String) : Bool :=
  if ¬ isEvmShape address then false
  else if address ≠ jsToLower address ∧ address ≠ jsToUpper address then
    validateEvmChecksum address
  else true

/-- The `EVM_NETWORKS` list of addressUtils.ts. -/
def EVM_NETWORKS : List String :=
  ["ethereum", "polygon", "arbitrum", "optimism", "base", "avalanche",
   "sepolia", "mumbai", "arbitrum-sepolia", "optimism-sepolia", "base-sepolia",
   "fuji"]

/-- `validateAddress(address, network)`: falsy guard, trim, then the
per-family dispatch; unknown networks fall back to EVM-format
validation. -/
def validateAddress (address network : String) : Bool :=
  if address = "" then false
  else
    let trimmedAddress := jsTrim address
    if EVM_NETWORKS.contains network then validateEvmAddress trimmedAddress
    else match network with
      | "solana" | "solana-devnet" => validateSolanaAddress trimmedAddress
      | "stellar" => validateStellarAddress trimmedAddress
      | "near" => validateNearAddress trimmedAddress
      | "noble" => validateNobleAddress trimmedAddress
      | "hedera" => validateHederaAddress trimmedAddress
      | _ => validateEvmAddress trimmedAddress

/-- JS `s.replace(pat, '')` for a plain-string pattern: remove the first
occurrence of `pat`, if any. -/
def replaceFirst (pat : List Char) : List Char → List Char
  | [] => []
  | c :: rest =>
    if pat.isPrefixOf (c :: rest) then (c :: rest).drop pat.length
    else c :: replaceFirst pat rest

def jsReplaceFirst (pat s : String) : String :=
  String.mk (replaceFirst pat.toList s.toList)

/-- Lowercase hex digit for a value below 16. -/
def hexDigitLower (n : ℕ) : Char :=
  if n < 10 then Char.ofNat (48 + n) else Char.ofNat (87 + n)

/-- `Buffer.from(string).toString('hex')`: lowercase hex of the UTF-8 bytes. -/
def utf8Hex (s : String) : List Char :=
  (s.toUTF8.toList.map (fun b => [hexDigitLower (b.toNat / 16), hexDigitLower (b.toNat % 16)])).flatten

/-- `addressToBytes32(address, network)`: EVM addresses are lowercased,
stripped of `0x` and left-padded to 64 hex chars; other networks get the
(acknowledged-placeholder) padded UTF-8 hex of the raw string. -/
def addressToBytes32 (address network : String) : String :=
  if EVM_NETWORKS.contains network then
    "0x" ++ String.mk (padList 64 '0' (jsReplaceFirst "0x" (jsToLower address)).toList)
  else
    "0x" ++ String.mk (padList 64 '0' (utf8Hex address))

def hexVal (c : Char) : Option ℕ :=
  if '0' ≤ c ∧ c ≤ '9' then some (c.toNat - 48)
  else if 'a' ≤ c ∧ c ≤ 'f' then some (c.toNat - 87)
  else if 'A' ≤ c ∧ c ≤ 'F' then some (c.toNat - 55)
  else none

/-- `Buffer.from(hexString, 'hex')`: parse hex pairs, stopping at the
first invalid pair or odd trailing char. -/
def hexPairsToBytes : List Char → List ℕ
  | c1 :: c2 :: rest =>
    match hexVal c1, hexVal c2 with
    | some h, some l => (16 * h + l) :: hexPairsToBytes rest
    | _, _ => []
  | _ => []

/-- `bytes32ToAddress(bytes32, network)`: EVM networks take the low
20 bytes (last 40 hex chars); other networks strip leading zeros and
UTF-8-decode the bytes (placeholder path, not exercised by the claims;
undecodable bytes are rendered as the empty string here where JS would
insert replacement characters). -/
def bytes32ToAddress (bytes32 network : String) : String :=
  if EVM_NETWORKS.contains network then
    "0x" ++ String.mk ((jsReplaceFirst "0x" bytes32).toList.drop
      ((jsReplaceFirst "0x" bytes32).toList.length - 40))
  else
    let cleanBytes := (jsReplaceFirst "0x" bytes32).toList.dropWhile (· = '0')
    match String.fromUTF8?
        ⟨⟨(hexPairsToBytes cleanBytes).map (fun n => UInt8.ofNat n)⟩⟩ with
    | some s => s
    | none => ""

/-! ## Claim C3 -/

theorem replaceFirst_0x (l : List Char) :
    replaceFirst ['0', 'x'] ('0' :: 'x' :: l) = l := by
  rw [replaceFirst, if_pos (by simp [List.isPrefixOf])]
  rfl

theorem padList_eq_general (w : ℕ) (l : List Char) (h : l.length ≤ w) :
    padList w '0' l = List.replicate (w - l.length) '0' ++ l := by
  unfold padList
  by_cases hw : w ≤ l.length
  · have hww : l.length = w := le_antisymm h hw
    rw [if_pos hw, hww]
    simp
  · rw [if_neg hw]

theorem toList_append_0x (L : List Char) :
    ("0x" ++ String.mk L).toList = '0' :: 'x' :: L := by
  rfl

/-- C3: for every supported EVM network and every syntactically valid
20-byte address, `bytes32ToAddress (addressToBytes32 A N) N` returns `A`
up to case (the forward direction lowercases, the reverse direction
takes the low 20 bytes of the zero-padded word). -/
theorem C3_evm_address_roundtrip :
    ∀ network address, network ∈ EVM_NETWORKS → isEvmShape address = true →
    jsToLower (bytes32ToAddress (addressToBytes32 address network) network)
      = jsToLower address := by
  intro n a hn ha
  have hcont : EVM_NETWORKS.contains n = true := by
    exact List.elem_eq_true_of_mem hn
  obtain ⟨hex, hlist, hlen⟩ : ∃ hex, a.toList = '0' :: 'x' :: hex ∧ hex.length = 40 := by
    unfold isEvmShape at ha
    split at ha
    · next rest heq =>
      refine ⟨rest, heq, ?_⟩
      simp only [Bool.and_eq_true, decide_eq_true_eq] at ha
      exact ha.1
    · exact absurd ha (by simp)
  -- the forward conversion
  have hlow : (jsToLower a).toList = '0' :: 'x' :: hex.map jsToLowerChar := by
    show (a.toList.map jsToLowerChar) = _
    rw [hlist]
    simp only [List.map_cons]
    rw [show jsToLowerChar '0' = '0' from by decide,
      show jsToLowerChar 'x' = 'x' from by decide]
  have hclean : (jsReplaceFirst "0x" (jsToLower a)).toList = hex.map jsToLowerChar := by
    show replaceFirst "0x".toList ((jsToLower a).toList) = _
    rw [hlow]
    exact replaceFirst_0x _
  have hfwd : (addressToBytes32 a n)
      = "0x" ++ String.mk (List.replicate 24 '0' ++ hex.map jsToLowerChar) := by
    unfold addressToBytes32
    rw [if_pos hcont, hclean, padList_eq_general _ _ (by simp [hlen])]
    congr 2
    simp [hlen]
  -- the reverse conversion
  have hback : (bytes32ToAddress (addressToBytes32 a n) n)
      = "0x" ++ String.mk (hex.map jsToLowerChar) := by
    unfold bytes32ToAddress
    rw [if_pos hcont, hfwd]
    have h1 : (jsReplaceFirst "0x"
        ("0x" ++ String.mk (List.replicate 24 '0' ++ hex.map jsToLowerChar))).toList
        = List.replicate 24 '0' ++ hex.map jsToLowerChar := by
      show replaceFirst "0x".toList
        (("0x" ++ String.mk (List.replicate 24 '0' ++ hex.map jsToLowerChar)).toList) = _
      rw [toList_append_0x]
      exact replaceFirst_0x _
    rw [h1]
    have h2 : (List.replicate 24 '0' ++ hex.map jsToLowerChar).length = 64 := by
      simp [hlen]
    rw [h2]
    have h3 : (List.replicate 24 '0' ++ hex.map jsToLowerChar).drop (64 - 40)
        = hex.map jsToLowerChar := by
      rw [show (64 - 40 : ℕ) = (List.replicate 24 '0' : List Char).length by simp]
      exact List.drop_left _ _
    rw [h3]
  rw [hback]
  -- lowercasing once more is idempotent on the already-lowercased result
  show String.mk ((("0x" ++ String.mk (hex.map jsToLowerChar)).toList).map jsToLowerChar)
    = String.mk (a.toList.map jsToLowerChar)
  rw [toList_append_0x, hlist]
  simp only [List.map_cons, List.map_map]
  rw [show jsToLowerChar '0' = '0' from by decide,
    show jsToLowerChar 'x' = 'x' from by decide]
  have hidem : hex.map (jsToLowerChar ∘ jsToLowerChar) = hex.map jsToLowerChar :=
    List.map_congr_left fun c _ => jsToLowerChar_idem c
  rw [hidem]

/-- Witness for C3: round trip of a mixed-case address on ethereum. -/
theorem C3_evm_address_roundtrip_witness :
    ("ethereum" ∈ EVM_NETWORKS) ∧
    isEvmShape "0xAbCdEf1234567890aBcDeF1234567890abcdef12" = true ∧
    jsToLower (bytes32ToAddress
        (addressToBytes32 "0xAbCdEf1234567890aBcDeF1234567890abcdef12" "ethereum")
        "ethereum")
      = jsToLower "0xAbCdEf1234567890aBcDeF1234567890abcdef12" :=
  ⟨by decide, by decide,
   C3_evm_address_roundtrip "ethereum" "0xAbCdEf1234567890aBcDeF1234567890abcdef12"
     (by decide) (by decide)⟩

/-! ## Claim C8 -/

/-- C8 counterexample: `validateAddress` returns a bare boolean, so a
malformed address on a supported network, a malformed address on an
unknown network, and (worse) a well-formed EVM address on an unknown
network are indistinguishable or silently accepted: the unknown-network
case falls back to EVM validation instead of reporting the network as
unsupported. -/
theorem C8_counterexample :
    validateAddress "not-an-address" "ethereum" = false ∧
    validateAddress "not-an-address" "unknown-chain" = false ∧
    validateAddress "0x1234567890123456789012345678901234567890" "unknown-chain"
      = true := by
  refine ⟨by decide, by decide, by decide⟩

/-- C8 (amended): `validateAddress` reports failure only as `false` and
never distinguishes a malformed address from an unsupported network: a
falsy address yields `false` for every network, and every network
outside `EVM_NETWORKS` and outside the six recognized non-EVM cases is
validated exactly like an EVM network (the `default` fallback), so an
unsupported network is never observable from the result. -/
theorem C8_validateAddress_no_distinction :
    (∀ network, validateAddress "" network = false) ∧
    (∀ address network,
      ¬ EVM_NETWORKS.contains network = true →
      network ∉ (["solana", "solana-devnet", "stellar", "near",
        "noble", "hedera"] : List String) →
      validateAddress address network
        = if address = "" then false else validateEvmAddress (jsTrim address)) := by
  constructor
  · intro n
    rfl
  · intro a n h1 h2
    simp only [validateAddress]
    by_cases ha : a = ""
    · rw [if_pos ha, if_pos ha]
    · rw [if_neg ha, if_neg ha, if_neg h1]
      split <;> simp_all

/-- Witness for C8: the fallback equation at a concrete unknown
network. -/
theorem C8_validateAddress_no_distinction_witness :
    validateAddress "" "unknown-chain" = false ∧
    validateAddress "0x1234567890123456789012345678901234567890" "unknown-chain"
      = if ("0x1234567890123456789012345678901234567890" : String) = "" then false
        else validateEvmAddress (jsTrim "0x1234567890123456789012345678901234567890") :=
  ⟨C8_validateAddress_no_distinction.1 "unknown-chain",
   C8_validateAddress_no_distinction.2 "0x1234567890123456789012345678901234567890"
     "unknown-chain" (by decide) (by decide)⟩

/-! ## Claim C5

`CctpClient.initiateTransfer`, modelled as a trace-producing function.
The on-chain side is abstracted to the list of provider interactions
the method issues, in program order; the method body performs no
provider interaction before the first `depositForBurn*` submission
(`new ethers.Contract` and `toRawAmount`/`addressToBytes32` are local).
`constants/contracts.ts` is not present in `src/`, so the
`USDC_CONTRACTS` and `TOKEN_MESSENGER_CONTRACTS` tables are parameters;
the falsy guard on the looked-up addresses is modelled by `Option`. -/

/-- A provider interaction issued by `initiateTransfer`. -/
inductive RpcCall where
  | depositForBurn (rawAmount : String) (destinationDomain : ℕ)
      (mintRecipient : String) (usdcAddress : String)
  | depositForBurnWithCaller (rawAmount : String) (destinationDomain : ℕ)
      (mintRecipient : String) (usdcAddress : String) (callerBytes32 : String)
deriving DecidableEq

/-- `initiateTransfer` up to the transaction submission: the validation
guard, the contract-table guard, the domain lookup, then the
`depositForBurn`/`depositForBurnWithCaller` submission (the JS falsy
test on the optional `destinationCaller` is `≠ ""`).  Returns the
outcome together with the trace of provider interactions issued. -/
def initiateTransfer
    (usdcContracts tokenMessengerContracts : String → Option String)
    (sourceNetwork destinationNetwork : String) (amount : DecAmount)
    (destinationAddress destinationCaller : String) :
    Except String RpcCall × List RpcCall :=
  if validateAddress destinationAddress destinationNetwork = false then
    (.error ("Invalid destination address for " ++ destinationNetwork), [])
  else
    match usdcContracts sourceNetwork, tokenMessengerContracts sourceNetwork with
    | some usdcAddress, some _tokenMessengerAddress =>
      let rawAmount := toRawAmount amount
      match getDomainId destinationNetwork with
      | none => (.error ("Destination network " ++ destinationNetwork
          ++ " not supported by CCTP"), [])
      | some destinationDomain =>
        let mintRecipient := addressToBytes32 destinationAddress destinationNetwork
        let call := if destinationCaller = "" then
            RpcCall.depositForBurn rawAmount destinationDomain mintRecipient usdcAddress
          else
            RpcCall.depositForBurnWithCaller rawAmount destinationDomain mintRecipient
              usdcAddress (addressToBytes32 destinationCaller destinationNetwork)
        (.ok call, [call])
    | _, _ =>
      (.error ("USDC or TokenMessenger not available on " ++ sourceNetwork), [])

/-- C5: whenever the destination address fails validation for the
destination network, `initiateTransfer` raises the descriptive
validation error and its trace of provider interactions is empty — no
chain RPC is ever issued. -/
theorem C5_validation_before_rpc :
    ∀ usdcContracts tokenMessengerContracts sourceNetwork destinationNetwork
      amount destinationAddress destinationCaller,
    validateAddress destinationAddress destinationNetwork = false →
    initiateTransfer usdcContracts tokenMessengerContracts sourceNetwork
        destinationNetwork amount destinationAddress destinationCaller
      = (.error ("Invalid destination address for " ++ destinationNetwork), []) := by
  intro u t s dnet am da dc h
  unfold initiateTransfer
  rw [if_pos h]

/-- Witness for C5: a malformed destination address on ethereum with
fully populated contract tables. -/
theorem C5_validation_before_rpc_witness :
    validateAddress "not-an-address" "ethereum" = false ∧
    initiateTransfer (fun _ => some "0xusdc") (fun _ => some "0xmessenger")
        "ethereum" "ethereum" ⟨false, 1, []⟩ "not-an-address" ""
      = (.error ("Invalid destination address for " ++ "ethereum"), []) :=
  ⟨by decide,
   C5_validation_before_rpc (fun _ => some "0xusdc") (fun _ => some "0xmessenger")
     "ethereum" "ethereum" ⟨false, 1, []⟩ "not-an-address" "" (by decide)⟩

end CircleSpec
